import Mathlib

/-!
# Verification of the money-muling detection core

Shallow embedding of the analytics pipeline of the
`rift-money-muling-detection` repository (backend/app): graph builder,
cycle / smurfing / shell detectors, scorer and ring aggregation.

Modelling conventions:
* a pandas row becomes a `Txn` record; `amount` is `ℚ`, `timestamp` is `ℤ`
  (seconds since epoch);
* Python `round(x, k)` (banker's rounding on floats) is modelled as
  half-even rounding on `ℚ`;
* Python `set` iteration order is unspecified; wherever the source iterates
  a set (`all_accounts`, `list(set(...))`) we fix first-occurrence order
  (`List.dedup` keeps the first occurrence).  No theorem below depends on
  that choice;
* `networkx` enumerators (`simple_cycles`, `all_simple_paths`) are library
  code, not repository code: `simple_cycles` is abstracted as an input
  stream (with its documented length bound as a hypothesis where needed),
  `all_simple_paths` is modelled by a depth-first enumeration with cutoff.
-/

namespace MuleDetect

/-- One transaction row (after CSV normalisation): `sender`, `receiver`,
`amount`, `timestamp` in seconds. -/
structure Txn where
  sender : String
  receiver : String
  amount : ℚ
  timestamp : ℤ
deriving DecidableEq, Repr

/-! ## Small string / numeric utilities shared by the embedding -/

/-- Is `pat` a contiguous substring of `hay` (as char lists)?  Models
Python's `p in lower`. -/
def charsContain (hay pat : List Char) : Bool :=
  pat.isPrefixOf hay ||
    match hay with
    | [] => false
    | _ :: t => charsContain t pat

/-- Substring test on strings, models Python `pat in s`. -/
def strContains (s pat : String) : Bool :=
  charsContain s.data pat.data

/-- Python `s.lower()` (character-wise lower-casing; `String.toLower` has
the same semantics but is defined through byte positions, which the kernel
cannot evaluate). -/
def lowerStr (s : String) : String := ⟨s.data.map Char.toLower⟩

/-- Little-endian decimal digits, fuel-based so that the kernel can
evaluate it (`fuel ≥ n` suffices). -/
def natDigitsRevAux : ℕ → ℕ → List ℕ
  | 0, n => [n]
  | fuel + 1, n => if n < 10 then [n] else (n % 10) :: natDigitsRevAux fuel (n / 10)

/-- Little-endian decimal digits of `n` (`n = 0` gives `[0]`). -/
def natDigitsRev (n : ℕ) : List ℕ := natDigitsRevAux n n

/-- The character of a decimal digit. -/
def digitChar (d : ℕ) : Char := Char.ofNat (48 + d)

/-- Big-endian decimal digit characters of `n`, models Python `f"{n}"`. -/
def natReprChars (n : ℕ) : List Char :=
  (natDigitsRev n).reverse.map digitChar

/-- Decimal string of a natural number, models Python `f"{n}"`. -/
def natRepr (n : ℕ) : String := ⟨natReprChars n⟩

/-- Zero-padded decimal digits, models Python `f"{n:03d}"`. -/
def pad3Chars (n : ℕ) : List Char :=
  List.replicate (3 - (natReprChars n).length) '0' ++ natReprChars n

/-- Ring label, models Python `f"RING_{n:03d}"`. -/
def ringStr (n : ℕ) : String := ⟨['R', 'I', 'N', 'G', '_'] ++ pad3Chars n⟩

/-- Value of a little-endian digit list. -/
def digitsVal : List ℕ → ℕ
  | [] => 0
  | d :: ds => d + 10 * digitsVal ds

/-- Big-endian numeric value of a char list (digits only). -/
def charsVal (cs : List Char) : ℕ :=
  cs.foldl (fun a c => 10 * a + (c.toNat - 48)) 0

/-- Half-even ("banker's") rounding to an integer, models Python
`round(x)` on exactly-represented values. -/
def pyRound (q : ℚ) : ℤ :=
  let f := ⌊q⌋
  let r := q - f
  if r < 1/2 then f
  else if 1/2 < r then f + 1
  else if 2 ∣ f then f else f + 1

/-- Python `round(x, 1)` on `ℚ`. -/
def round1q (q : ℚ) : ℚ := (pyRound (q * 10) : ℚ) / 10

/-- Python `round(x, 2)` on `ℚ`. -/
def round2q (q : ℚ) : ℚ := (pyRound (q * 100) : ℚ) / 100

/-! ## Graph builder (`graph_builder.build_graph`)

`build_graph` computes node aggregates by `df.groupby` over the FULL
dataframe (self-loops included) and then adds one multigraph edge per
non-self-loop row. -/

/-- `in_count` of an account: number of rows whose receiver is `a`
(groupby over the full dataframe, self-loops included). -/
def in_count (df : List Txn) (a : String) : ℕ :=
  df.countP (fun t => t.receiver == a)

/-- `out_count` of an account: number of rows whose sender is `a`. -/
def out_count (df : List Txn) (a : String) : ℕ :=
  df.countP (fun t => t.sender == a)

/-- `total_inflow` aggregate of an account. -/
def total_inflow (df : List Txn) (a : String) : ℚ :=
  ((df.filter (fun t => t.receiver == a)).map Txn.amount).sum

/-- `total_outflow` aggregate of an account. -/
def total_outflow (df : List Txn) (a : String) : ℚ :=
  ((df.filter (fun t => t.sender == a)).map Txn.amount).sum

/-- `transaction_count = in_count + out_count` as stored on each node. -/
def transaction_count (df : List Txn) (a : String) : ℕ :=
  in_count df a + out_count df a

/-- The multigraph edge list: one edge per row, self-loop rows skipped
(`if sender == receiver: continue`). -/
def graphEdges (df : List Txn) : List Txn :=
  df.filter (fun t => !(t.sender == t.receiver))

/-- Number of multigraph edges incident to `a` (each parallel edge counted
once per occurrence). -/
def incidentEdgeCount (df : List Txn) (a : String) : ℕ :=
  (graphEdges df).countP (fun t => t.sender == a || t.receiver == a)

/-- Number of self-loop rows at `a`. -/
def selfLoopCount (df : List Txn) (a : String) : ℕ :=
  df.countP (fun t => t.sender == a && t.receiver == a)

/-- The substring patterns of `_looks_like_business`. -/
def businessPatterns : List String :=
  ["corp", "inc", "llc", "ltd", "co.", "merchant", "store", "shop", "pay"]

/-- `_looks_like_business`: any pattern occurs in the lower-cased name. -/
def looks_like_business (name : String) : Bool :=
  businessPatterns.any (fun p => strContains (lowerStr name) p)

/-- `account_type` as set by `build_graph`. -/
def account_type (df : List Txn) (a : String) : String :=
  if transaction_count df a > 50 || looks_like_business a then "business"
  else "individual"

/-- Node set of the graph: every id occurring as sender or receiver
(`set(df["sender"]) | set(df["receiver"])`, first-occurrence order). -/
def nodesOf (df : List Txn) : List String :=
  (df.map Txn.sender ++ df.map Txn.receiver).dedup

/-! ## Claim C1: self-loops and aggregates -/

/-- A dataframe consisting of a single self-loop transaction. -/
def c1df : List Txn := [⟨"A", "A", 100, 0⟩]

/-- **C1, counterexample.**  The claim says self-loop rows are excluded
from the aggregates (`in_count` of `A` would be 0) and that
`transaction_count` equals the number of incident multigraph edges.  On a
dataframe holding one self-loop `A→A`, `build_graph` keeps the row in the
groupby aggregates (`in_count = 1`, `transaction_count = 2`) while adding
no edge (`incidentEdgeCount = 0`), so both parts of the claim fail. -/
theorem c1_selfloops_in_aggregates :
    in_count c1df "A" = 1 ∧ transaction_count c1df "A" = 2 ∧
      incidentEdgeCount c1df "A" = 0 := by decide

lemma in_count_cons (t : Txn) (l : List Txn) (a : String) :
    in_count (t :: l) a = in_count l a + (if t.receiver = a then 1 else 0) := by
  simp [in_count, List.countP_cons]

lemma out_count_cons (t : Txn) (l : List Txn) (a : String) :
    out_count (t :: l) a = out_count l a + (if t.sender = a then 1 else 0) := by
  simp [out_count, List.countP_cons]

lemma selfLoopCount_cons (t : Txn) (l : List Txn) (a : String) :
    selfLoopCount (t :: l) a =
      selfLoopCount l a + (if t.sender = a ∧ t.receiver = a then 1 else 0) := by
  simp [selfLoopCount, List.countP_cons, Bool.and_eq_true]

lemma incidentEdgeCount_cons (t : Txn) (l : List Txn) (a : String) :
    incidentEdgeCount (t :: l) a =
      incidentEdgeCount l a +
        (if t.sender ≠ t.receiver ∧ (t.sender = a ∨ t.receiver = a)
          then 1 else 0) := by
  by_cases hq : t.sender = t.receiver
  · simp [incidentEdgeCount, graphEdges, List.filter_cons, hq]
  · simp [incidentEdgeCount, graphEdges, List.filter_cons, hq,
      List.countP_cons, Bool.or_eq_true]

/-- **C1, amended.**  Self-loop rows are dropped only from the edge set,
not from the aggregates: for every account, `transaction_count` (which is
`in_count + out_count` over all rows) equals the number of multigraph
edges incident to it plus twice the number of self-loop rows at it. -/
theorem c1_transaction_count_eq_incident_plus_selfloops
    (df : List Txn) (a : String) :
    transaction_count df a = incidentEdgeCount df a + 2 * selfLoopCount df a := by
  induction df with
  | nil => rfl
  | cons t l ih =>
    simp only [transaction_count] at ih ⊢
    rw [in_count_cons, out_count_cons, selfLoopCount_cons,
      incidentEdgeCount_cons]
    split_ifs with hA hB hC hD <;>
      first
        | omega
        | (exfalso; subst_vars; simp_all)

/-! ## Claim C4: business classification -/

/-- A word character in the sense of the regex `\b` boundary
(`[A-Za-z0-9_]`). -/
def isWordChar (c : Char) : Bool := c.isAlphanum || c == '_'

/-- Occurrence of `co` followed by a word boundary somewhere in a char
list (the `co\b` alternative of the spec's regex). -/
def coWordBoundary : List Char → Bool
  | 'c' :: 'o' :: rest =>
      (match rest with
       | [] => true
       | c :: _ => !(isWordChar c)) || coWordBoundary ('o' :: rest)
  | _ :: rest => coWordBoundary rest
  | [] => false

/-- Modelled from the spec: the business-name regex
`/(corp|inc|llc|ltd|co\b|merchant|store|shop|pay|bank|services)/i` that
claim C4 attributes to the code (a definition from the claim's words, used
only to exhibit the divergence from `looks_like_business`). -/
def specBusinessRegexMatch (name : String) : Bool :=
  (["corp", "inc", "llc", "ltd", "merchant", "store", "shop", "pay",
    "bank", "services"].any
      (fun p => strContains (lowerStr name) p))
  || coWordBoundary (lowerStr name).data

/-- A dataframe with one transaction sent by account `BANK`. -/
def c4df : List Txn := [⟨"BANK", "X", 5, 0⟩]

/-- **C4, counterexample.**  The claim's regex matches `BANK` (alternative
`bank`), and `BANK` has only one transaction, so the claim makes its
`account_type` `business`; the code's substring list
(`corp, inc, llc, ltd, co., merchant, store, shop, pay` — no `bank`, no
`services`, literal `co.` instead of `co\b`) does not match, and the code
returns `individual`. -/
theorem c4_bank_classified_individual :
    account_type c4df "BANK" = "individual" ∧
      transaction_count c4df "BANK" ≤ 50 ∧
      specBusinessRegexMatch "BANK" = true := by decide

/-- **C4, amended.**  `account_type` is `business` iff
`transaction_count > 50` or the lower-cased id contains one of the
substrings `corp, inc, llc, ltd, co., merchant, store, shop, pay`
(substring containment, not the spec's regex: `bank` and `services` are
absent and `co.` is a literal dot). -/
theorem c4_account_type_characterisation (df : List Txn) (a : String) :
    account_type df a = "business" ↔
      50 < transaction_count df a ∨
        ∃ p ∈ businessPatterns, strContains (lowerStr a) p = true := by
  by_cases h : (decide (transaction_count df a > 50) || looks_like_business a) = true
  · rw [account_type, if_pos h]
    refine iff_of_true rfl ?_
    have h' : 50 < transaction_count df a ∨ looks_like_business a = true := by
      simpa using h
    rcases h' with h' | h'
    · exact Or.inl h'
    · exact Or.inr (by simpa [looks_like_business, List.any_eq_true] using h')
  · rw [account_type, if_neg h]
    refine iff_of_false (by decide) ?_
    simp only [Bool.or_eq_true, decide_eq_true_eq, gt_iff_lt,
      looks_like_business, List.any_eq_true, not_or, not_exists] at h
    rintro (hlt | ⟨p, hp, hsp⟩)
    · exact absurd hlt h.1
    · exact absurd hsp (by simpa using fun hx => (h.2 p) ⟨hp, hx⟩)

/-! ## Detection result records (`models.py`) -/

/-- `CycleResult`. -/
structure CycleResult where
  ring_id : String
  nodes : List String
  length : ℕ
  total_amount : ℚ
  time_span_hours : ℚ
  edge_count : ℕ
  pattern_type : String := "cycle"
deriving DecidableEq, Repr

/-- `SmurfingResult` (`window_start` / `window_end` in epoch seconds). -/
structure SmurfingResult where
  account_id : String
  pattern_type : String
  unique_counterparties : ℕ
  total_amount : ℚ
  velocity_per_hour : ℚ
  window_start : ℤ
  window_end : ℤ
  ring_id : String := ""
deriving DecidableEq, Repr

/-- `ShellResult`. -/
structure ShellResult where
  ring_id : String
  pattern_type : String := "shell"
  chain : List String
  intermediate_accounts : List String
  total_amount : ℚ
  shell_depth : ℕ
deriving DecidableEq, Repr

/-- `AccountProfile` (aggregates plus the four FP flags). -/
structure AccountProfile where
  account_id : String
  is_payroll : Bool := false
  is_merchant : Bool := false
  is_salary : Bool := false
  is_established_business : Bool := false
  account_type : String := "individual"
  total_inflow : ℚ := 0
  total_outflow : ℚ := 0
  transaction_count : ℕ := 0
deriving DecidableEq, Repr

/-- `SuspiciousAccount`. -/
structure SuspiciousAccount where
  account_id : String
  suspicion_score : ℚ
  detected_patterns : List String
  ring_id : String
  account_type : String
  total_inflow : ℚ
  total_outflow : ℚ
  transaction_count : ℕ
  connected_accounts : List String
  ring_ids : List String
deriving DecidableEq, Repr

/-- `FraudRing`. -/
structure FraudRing where
  ring_id : String
  member_accounts : List String
  pattern_type : String
  risk_score : ℚ
deriving DecidableEq, Repr

/-! ## Scoring (`scoring._score_account`)

The Python loops `for cyc in cycles: if acct in cyc.nodes: score += ...`
accumulate a sum of per-detection contributions; they are embedded as the
sum of a per-item contribution function over each list. -/

/-- Cycle contribution: `20·(6−length)` plus `10` if the total exceeds
10 000, for cycles containing the account. -/
def cycleContrib (acct : String) (c : CycleResult) : ℚ :=
  if acct ∈ c.nodes then
    20 * (6 - (c.length : ℚ)) + (if c.total_amount > 10000 then 10 else 0)
  else 0

/-- Smurf contribution: base 15, `+5` if `unique_counterparties > 20`,
`+10` if `velocity_per_hour > 5000`. -/
def smurfContrib (acct : String) (s : SmurfingResult) : ℚ :=
  if s.account_id = acct then
    15 + (if s.unique_counterparties > 20 then 5 else 0) +
      (if s.velocity_per_hour > 5000 then 10 else 0)
  else 0

/-- Shell contribution: `+25` for each shell whose intermediates contain
the account. -/
def shellContrib (acct : String) (sh : ShellResult) : ℚ :=
  if acct ∈ sh.intermediate_accounts then 25 else 0

/-- The raw (pre-suppression) score. -/
def rawScore (acct : String) (cycles : List CycleResult)
    (smurfing : List SmurfingResult) (shells : List ShellResult) : ℚ :=
  (cycles.map (cycleContrib acct)).sum + (smurfing.map (smurfContrib acct)).sum
    + (shells.map (shellContrib acct)).sum

/-- One false-positive suppression step: `score = max(0, score - d)` when
the flag is set. -/
def supp (b : Bool) (d x : ℚ) : ℚ := if b then max 0 (x - d) else x

/-- `_score_account`: raw contributions, then the four suppressions in
source order (payroll 30, merchant 25, salary 20, established 35), then
`min(100, round(score, 1))`. -/
def score_account (acct : String) (profile : AccountProfile)
    (cycles : List CycleResult) (smurfing : List SmurfingResult)
    (shells : List ShellResult) : ℚ :=
  min 100 (round1q
    (supp profile.is_established_business 35
      (supp profile.is_salary 20
        (supp profile.is_merchant 25
          (supp profile.is_payroll 30
            (rawScore acct cycles smurfing shells))))))

/-- `calculate_scores`: per-profile score, keeping only positive scores,
in profile iteration order. -/
def calculate_scores (profiles : List (String × AccountProfile))
    (cycles : List CycleResult) (smurfing : List SmurfingResult)
    (shells : List ShellResult) : List (String × ℚ) :=
  profiles.filterMap (fun p =>
    let s := score_account p.1 p.2 cycles smurfing shells
    if s > 0 then some (p.1, s) else none)

/-! ## Claim C8: monotone suppression and score bounds -/

/-- The four false-positive flags. -/
inductive FPFlag where
  | payroll
  | merchant
  | salary
  | established
deriving DecidableEq, Repr

/-- Set one FP flag to `true`, leaving the rest of the profile unchanged. -/
def setFlag : FPFlag → AccountProfile → AccountProfile
  | .payroll, p => { p with is_payroll := true }
  | .merchant, p => { p with is_merchant := true }
  | .salary, p => { p with is_salary := true }
  | .established, p => { p with is_established_business := true }

/-- A rational is integral when it is the cast of an integer. -/
def IsIntQ (x : ℚ) : Prop := ∃ n : ℤ, x = (n : ℚ)

lemma isIntQ_zero : IsIntQ 0 := ⟨0, by norm_num⟩

lemma isIntQ_add {x y : ℚ} (hx : IsIntQ x) (hy : IsIntQ y) : IsIntQ (x + y) := by
  obtain ⟨n, rfl⟩ := hx; obtain ⟨m, rfl⟩ := hy
  exact ⟨n + m, by push_cast; ring⟩

lemma isIntQ_sum {l : List ℚ} (h : ∀ x ∈ l, IsIntQ x) : IsIntQ l.sum := by
  induction l with
  | nil => simpa using isIntQ_zero
  | cons a l ih =>
    rw [List.sum_cons]
    exact isIntQ_add (h a (by simp)) (ih fun x hx => h x (by simp [hx]))

lemma isIntQ_ite {c : Prop} [Decidable c] {x y : ℚ}
    (hx : IsIntQ x) (hy : IsIntQ y) : IsIntQ (if c then x else y) := by
  split <;> assumption

lemma isIntQ_supp {b : Bool} {d x : ℚ} (hd : IsIntQ d) (hx : IsIntQ x) :
    IsIntQ (supp b d x) := by
  obtain ⟨n, rfl⟩ := hd; obtain ⟨m, rfl⟩ := hx
  unfold supp
  split
  · exact ⟨max 0 (m - n), by push_cast [Int.cast_max]; norm_num⟩
  · exact ⟨m, rfl⟩

lemma round1q_intCast (n : ℤ) : round1q (n : ℚ) = (n : ℚ) := by
  unfold round1q pyRound
  have h10 : ((n : ℚ)) * 10 = ((n * 10 : ℤ) : ℚ) := by push_cast; ring
  rw [h10]
  simp only [Int.floor_intCast]
  rw [if_pos (by norm_num)]
  push_cast
  ring

lemma supp_nonneg {b : Bool} {d x : ℚ} (hx : 0 ≤ x) : 0 ≤ supp b d x := by
  unfold supp; split
  · exact le_max_left 0 _
  · exact hx

lemma supp_mono {b : Bool} {d : ℚ} {x y : ℚ} (h : x ≤ y) :
    supp b d x ≤ supp b d y := by
  unfold supp; split
  · exact max_le_max le_rfl (by linarith)
  · exact h

lemma supp_le_self {b : Bool} {d x : ℚ} (hx : 0 ≤ x) (hd : 0 ≤ d) :
    supp b d x ≤ x := by
  unfold supp; split
  · exact max_le hx (by linarith)
  · exact le_rfl

lemma rawScore_nonneg (acct : String) (cycles : List CycleResult)
    (smurfing : List SmurfingResult) (shells : List ShellResult)
    (hlen : ∀ c ∈ cycles, c.length ≤ 6) :
    0 ≤ rawScore acct cycles smurfing shells := by
  unfold rawScore
  have h1 : 0 ≤ (cycles.map (cycleContrib acct)).sum := by
    apply List.sum_nonneg
    intro x hx
    obtain ⟨c, hc, rfl⟩ := List.mem_map.mp hx
    unfold cycleContrib
    have hc6 : (c.length : ℚ) ≤ 6 := by exact_mod_cast hlen c hc
    split
    · have : (0:ℚ) ≤ 20 * (6 - (c.length : ℚ)) := by linarith
      split <;> linarith
    · exact le_rfl
  have h2 : 0 ≤ (smurfing.map (smurfContrib acct)).sum := by
    apply List.sum_nonneg
    intro x hx
    obtain ⟨s, _, rfl⟩ := List.mem_map.mp hx
    unfold smurfContrib
    split
    · split <;> split <;> norm_num
    · exact le_rfl
  have h3 : 0 ≤ (shells.map (shellContrib acct)).sum := by
    apply List.sum_nonneg
    intro x hx
    obtain ⟨sh, _, rfl⟩ := List.mem_map.mp hx
    unfold shellContrib
    split <;> norm_num
  linarith

lemma rawScore_isInt (acct : String) (cycles : List CycleResult)
    (smurfing : List SmurfingResult) (shells : List ShellResult) :
    IsIntQ (rawScore acct cycles smurfing shells) := by
  unfold rawScore
  refine isIntQ_add (isIntQ_add (isIntQ_sum ?_) (isIntQ_sum ?_)) (isIntQ_sum ?_)
  · intro x hx
    obtain ⟨c, _, rfl⟩ := List.mem_map.mp hx
    unfold cycleContrib
    refine isIntQ_ite (isIntQ_add ⟨20 * (6 - c.length), by push_cast; ring⟩
      (isIntQ_ite ⟨10, by norm_num⟩ isIntQ_zero)) isIntQ_zero
  · intro x hx
    obtain ⟨s, _, rfl⟩ := List.mem_map.mp hx
    unfold smurfContrib
    refine isIntQ_ite (isIntQ_add (isIntQ_add ⟨15, by norm_num⟩
      (isIntQ_ite ⟨5, by norm_num⟩ isIntQ_zero))
      (isIntQ_ite ⟨10, by norm_num⟩ isIntQ_zero)) isIntQ_zero
  · intro x hx
    obtain ⟨sh, _, rfl⟩ := List.mem_map.mp hx
    unfold shellContrib
    exact isIntQ_ite ⟨25, by norm_num⟩ isIntQ_zero

/-- The suppression chain of `_score_account` for a given profile. -/
def suppChain (profile : AccountProfile) (x : ℚ) : ℚ :=
  supp profile.is_established_business 35
    (supp profile.is_salary 20
      (supp profile.is_merchant 25
        (supp profile.is_payroll 30 x)))

lemma score_account_eq (acct : String) (profile : AccountProfile)
    (cycles : List CycleResult) (smurfing : List SmurfingResult)
    (shells : List ShellResult) :
    score_account acct profile cycles smurfing shells =
      min 100 (round1q (suppChain profile (rawScore acct cycles smurfing shells))) := rfl

lemma suppChain_nonneg (profile : AccountProfile) {x : ℚ} (hx : 0 ≤ x) :
    0 ≤ suppChain profile x :=
  supp_nonneg (supp_nonneg (supp_nonneg (supp_nonneg hx)))

lemma suppChain_isInt (profile : AccountProfile) {x : ℚ} (hx : IsIntQ x) :
    IsIntQ (suppChain profile x) :=
  isIntQ_supp ⟨35, by norm_num⟩ (isIntQ_supp ⟨20, by norm_num⟩
    (isIntQ_supp ⟨25, by norm_num⟩ (isIntQ_supp ⟨30, by norm_num⟩ hx)))

lemma suppChain_mono (profile : AccountProfile) {x y : ℚ} (h : x ≤ y) :
    suppChain profile x ≤ suppChain profile y :=
  supp_mono (supp_mono (supp_mono (supp_mono h)))

lemma supp_true_le (b : Bool) {d x : ℚ} (hx : 0 ≤ x) (hd : 0 ≤ d) :
    supp true d x ≤ supp b d x := by
  cases b
  · have h1 : x - d ≤ x := by linarith
    have hL : supp true d x = max 0 (x - d) := by simp [supp]
    have hR : supp false d x = x := by simp [supp]
    rw [hL, hR]
    exact max_le hx h1
  · simp [supp]

lemma suppChain_setFlag_le (f : FPFlag) (profile : AccountProfile) {x : ℚ}
    (hx : 0 ≤ x) :
    suppChain (setFlag f profile) x ≤ suppChain profile x := by
  have h30 : 0 ≤ supp profile.is_payroll 30 x := supp_nonneg hx
  have h25 : 0 ≤ supp profile.is_merchant 25 (supp profile.is_payroll 30 x) :=
    supp_nonneg h30
  have h20 : 0 ≤ supp profile.is_salary 20
      (supp profile.is_merchant 25 (supp profile.is_payroll 30 x)) :=
    supp_nonneg h25
  cases f with
  | payroll =>
    exact supp_mono (supp_mono (supp_mono
      (supp_true_le profile.is_payroll hx (by norm_num))))
  | merchant =>
    exact supp_mono (supp_mono (supp_true_le profile.is_merchant h30 (by norm_num)))
  | salary =>
    exact supp_mono (supp_true_le profile.is_salary h25 (by norm_num))
  | established =>
    exact supp_true_le profile.is_established_business h20 (by norm_num)

/-- **C8 (confirmed).**  Provided every cycle in the detection input has
length at most 6 (the cycle detector only emits lengths 3..5), setting any
one FP flag (`is_payroll`, `is_merchant`, `is_salary`,
`is_established_business`) from false to true never increases the final
score of `_score_account`, and the final score always lies in `[0, 100]`. -/
theorem c8_monotone_suppression_and_bounds (f : FPFlag) (acct : String)
    (profile : AccountProfile) (cycles : List CycleResult)
    (smurfing : List SmurfingResult) (shells : List ShellResult)
    (hlen : ∀ c ∈ cycles, c.length ≤ 6) :
    score_account acct (setFlag f profile) cycles smurfing shells ≤
        score_account acct profile cycles smurfing shells ∧
      0 ≤ score_account acct profile cycles smurfing shells ∧
      score_account acct profile cycles smurfing shells ≤ 100 := by
  have hraw0 : 0 ≤ rawScore acct cycles smurfing shells :=
    rawScore_nonneg acct cycles smurfing shells hlen
  have hrawI : IsIntQ (rawScore acct cycles smurfing shells) :=
    rawScore_isInt acct cycles smurfing shells
  obtain ⟨n, hn⟩ := suppChain_isInt profile hrawI
  obtain ⟨m, hm⟩ := suppChain_isInt (setFlag f profile) hrawI
  rw [score_account_eq, score_account_eq, hn, hm, round1q_intCast, round1q_intCast]
  refine ⟨?_, ?_, min_le_left _ _⟩
  · have := suppChain_setFlag_le f profile hraw0
    rw [hn, hm] at this
    exact min_le_min le_rfl this
  · have := suppChain_nonneg profile hraw0
    rw [hn] at this
    exact le_min (by norm_num) this

/-- A one-cycle detection set used to witness C8 at a concrete input. -/
def c8cycles : List CycleResult :=
  [{ ring_id := "RING_001", nodes := ["A", "B", "C"], length := 3,
     total_amount := 15000, time_span_hours := 2, edge_count := 3 }]

/-- Witness for C8: the theorem applied at a concrete profile and a
concrete length-3 cycle. -/
theorem c8_witness :
    score_account "A" (setFlag .payroll { account_id := "A" }) c8cycles [] [] ≤
        score_account "A" { account_id := "A" } c8cycles [] [] ∧
      0 ≤ score_account "A" { account_id := "A" } c8cycles [] [] ∧
      score_account "A" { account_id := "A" } c8cycles [] [] ≤ 100 :=
  c8_monotone_suppression_and_bounds .payroll "A" { account_id := "A" }
    c8cycles [] [] (by decide)

/-! ## `scoring.build_suspicious_accounts`

The source fills two dicts (`pattern_map`, `ring_map`) by appending, in
source order, cycle entries, then smurf entries, then shell entries.  For
a fixed account the resulting dict value is exactly the concatenation of
the per-detection contributions in that order, which is how the maps are
embedded here. -/

/-- Pattern tag `f"cycle_length_{length}"`. -/
def cycleTag (n : ℕ) : String := ⟨("cycle_length_").data ++ natReprChars n⟩

/-- Pattern tag `f"shell_depth_{depth}"`. -/
def shellTag (n : ℕ) : String := ⟨("shell_depth_").data ++ natReprChars n⟩

/-- Pattern entries one cycle contributes to account `a`. -/
def cyclePatterns (a : String) (c : CycleResult) : List String :=
  c.nodes.flatMap (fun node =>
    if node = a then
      [cycleTag c.length] ++
        (if c.total_amount > 10000 then ["high_value_cycle"] else [])
    else [])

/-- Pattern entries one smurf contributes to account `a`. -/
def smurfPatterns (a : String) (s : SmurfingResult) : List String :=
  if s.account_id = a then
    [s.pattern_type] ++
      (if s.velocity_per_hour > 5000 then ["high_velocity"] else []) ++
      (if s.unique_counterparties > 20 then ["structuring"] else [])
  else []

/-- Pattern entries one shell contributes to account `a` (note: the source
iterates over the WHOLE `chain`, endpoints included). -/
def shellPatterns (a : String) (sh : ShellResult) : List String :=
  sh.chain.flatMap (fun node =>
    if node = a then [shellTag sh.shell_depth] else [])

/-- `pattern_map[a]` after the three fill loops. -/
def patternMap (cycles : List CycleResult) (smurfing : List SmurfingResult)
    (shells : List ShellResult) (a : String) : List String :=
  cycles.flatMap (cyclePatterns a) ++ smurfing.flatMap (smurfPatterns a) ++
    shells.flatMap (shellPatterns a)

/-- `ring_map[a]` after the three fill loops (smurfs contribute only when
their `ring_id` is non-empty; shells contribute for every chain member). -/
def ringMap (cycles : List CycleResult) (smurfing : List SmurfingResult)
    (shells : List ShellResult) (a : String) : List String :=
  cycles.flatMap (fun c =>
      c.nodes.flatMap (fun node => if node = a then [c.ring_id] else []))
    ++ smurfing.flatMap (fun s =>
      if s.account_id = a ∧ s.ring_id ≠ "" then [s.ring_id] else [])
    ++ shells.flatMap (fun sh =>
      sh.chain.flatMap (fun node => if node = a then [sh.ring_id] else []))

/-- Distinct out-neighbours of `a` in the multigraph
(`graph.successors`). -/
def successorsOf (df : List Txn) (a : String) : List String :=
  (((graphEdges df).filter (fun t => t.sender == a)).map Txn.receiver).dedup

/-- Distinct in-neighbours of `a` in the multigraph
(`graph.predecessors`). -/
def predecessorsOf (df : List Txn) (a : String) : List String :=
  (((graphEdges df).filter (fun t => t.receiver == a)).map Txn.sender).dedup

/-- One `SuspiciousAccount` entry, for a scores entry with positive
score. -/
def mkSuspicious (cycles : List CycleResult) (smurfing : List SmurfingResult)
    (shells : List ShellResult) (profiles : List (String × AccountProfile))
    (df : List Txn) (a : String) (score : ℚ) : SuspiciousAccount :=
  let rings := ringMap cycles smurfing shells a
  let profile? := profiles.lookup a
  { account_id := a
    suspicion_score := score
    detected_patterns := (patternMap cycles smurfing shells a).dedup
    ring_id := rings.headD ""
    account_type := (profile?.map AccountProfile.account_type).getD "individual"
    total_inflow := (profile?.map AccountProfile.total_inflow).getD 0
    total_outflow := (profile?.map AccountProfile.total_outflow).getD 0
    transaction_count := (profile?.map AccountProfile.transaction_count).getD 0
    connected_accounts :=
      if a ∈ nodesOf df then (successorsOf df a ++ predecessorsOf df a).dedup
      else []
    ring_ids := rings.dedup }

/-- The sort relation of the final sort:
`accounts.sort(key=lambda a: a.suspicion_score, reverse=True)` — a stable
descending sort on the score alone (no tie-break key).  Python's stable
sort is modelled by `List.insertionSort`, which is stable for a total
preorder. -/
def suspiciousRel (x y : SuspiciousAccount) : Prop :=
  y.suspicion_score ≤ x.suspicion_score

instance : DecidableRel suspiciousRel := fun x y =>
  inferInstanceAs (Decidable (y.suspicion_score ≤ x.suspicion_score))

instance : IsTotal SuspiciousAccount suspiciousRel :=
  ⟨fun a b => le_total b.suspicion_score a.suspicion_score⟩

instance : IsTrans SuspiciousAccount suspiciousRel :=
  ⟨fun _ _ _ h1 h2 => le_trans h2 h1⟩

/-- `build_suspicious_accounts`: one entry per scores item with positive
score (in scores iteration order), then the stable descending sort. -/
def build_suspicious_accounts (scores : List (String × ℚ))
    (cycles : List CycleResult) (smurfing : List SmurfingResult)
    (shells : List ShellResult) (profiles : List (String × AccountProfile))
    (df : List Txn) : List SuspiciousAccount :=
  (scores.filterMap (fun p =>
    if p.2 ≤ 0 then none
    else some (mkSuspicious cycles smurfing shells profiles df p.1 p.2))).insertionSort
    suspiciousRel

/-! ## Claim C3: output ordering -/

/-- Two equal scores, the lexicographically larger id first in the scores
map. -/
def c3scores : List (String × ℚ) := [("B", 50), ("A", 50)]

/-- **C3, counterexample.**  `build_suspicious_accounts` sorts only by
score (`key=lambda a: a.suspicion_score`), with no account-id tie-break:
with equal scores for `B` and `A` (inserted in that order) the output is
`[B, A]`, although `"A" < "B"` — the claim would require `[A, B]`. -/
theorem c3_no_id_tiebreak :
    (build_suspicious_accounts c3scores [] [] [] [] []).map
        SuspiciousAccount.account_id = ["B", "A"] ∧
      ("A" : String).data < ("B" : String).data := by decide

lemma mkSuspicious_account_id (cycles : List CycleResult)
    (smurfing : List SmurfingResult) (shells : List ShellResult)
    (profiles : List (String × AccountProfile)) (df : List Txn)
    (a : String) (q : ℚ) :
    (mkSuspicious cycles smurfing shells profiles df a q).account_id = a := rfl

lemma build_entries_ids (cycles : List CycleResult)
    (smurfing : List SmurfingResult) (shells : List ShellResult)
    (profiles : List (String × AccountProfile)) (df : List Txn)
    (scores : List (String × ℚ)) :
    (scores.filterMap (fun p =>
        if p.2 ≤ 0 then none
        else some (mkSuspicious cycles smurfing shells profiles df p.1 p.2))).map
        SuspiciousAccount.account_id =
      (scores.filter (fun p => !(p.2 ≤ 0))).map Prod.fst := by
  induction scores with
  | nil => rfl
  | cons p l ih =>
    by_cases hp : p.2 ≤ 0 <;>
      simp [List.filterMap_cons, List.filter_cons, hp, ih,
        mkSuspicious_account_id]

/-- **C3, amended.**  The output is the stable descending sort by score of
the entries built in scores-map order: (1) scores are pairwise descending;
(2) the account ids are a permutation of the positive-score ids of the
scores map; (3) stability — whenever entry `x` precedes entry `y` in build
order and `y`'s score is at most `x`'s (in particular on ties), `x` still
precedes `y` in the output.  Equal-score accounts therefore keep the
scores-map order, not ascending account-id order. -/
theorem c3_sorted_by_score_stable (scores : List (String × ℚ))
    (cycles : List CycleResult) (smurfing : List SmurfingResult)
    (shells : List ShellResult) (profiles : List (String × AccountProfile))
    (df : List Txn) :
    List.Pairwise
        (fun x y => y.suspicion_score ≤ x.suspicion_score)
        (build_suspicious_accounts scores cycles smurfing shells profiles df) ∧
      List.Perm
        ((build_suspicious_accounts scores cycles smurfing shells profiles df).map
          SuspiciousAccount.account_id)
        ((scores.filter (fun p => !(p.2 ≤ 0))).map Prod.fst) ∧
      ∀ x y : SuspiciousAccount,
        suspiciousRel x y →
        [x, y].Sublist
          (scores.filterMap (fun p =>
            if p.2 ≤ 0 then none
            else some (mkSuspicious cycles smurfing shells profiles df p.1 p.2))) →
        [x, y].Sublist
          (build_suspicious_accounts scores cycles smurfing shells profiles df) := by
  refine ⟨?_, ?_, ?_⟩
  · exact List.sorted_insertionSort suspiciousRel
      (scores.filterMap (fun p =>
        if p.2 ≤ 0 then none
        else some (mkSuspicious cycles smurfing shells profiles df p.1 p.2)))
  · have hperm := List.perm_insertionSort suspiciousRel
      (scores.filterMap (fun p =>
        if p.2 ≤ 0 then none
        else some (mkSuspicious cycles smurfing shells profiles df p.1 p.2)))
    have := (hperm.map SuspiciousAccount.account_id)
    rw [build_entries_ids] at this
    exact this
  · intro x y hxy hsub
    exact List.pair_sublist_insertionSort hxy hsub

/-- Witness for C3 (amended): the theorem applied at the concrete
two-entry scores map of the counterexample. -/
theorem c3_sorted_witness :
    List.Pairwise
        (fun x y => y.suspicion_score ≤ x.suspicion_score)
        (build_suspicious_accounts c3scores [] [] [] [] []) ∧
      List.Perm
        ((build_suspicious_accounts c3scores [] [] [] [] []).map
          SuspiciousAccount.account_id)
        ((c3scores.filter (fun p => !(p.2 ≤ 0))).map Prod.fst) ∧
      ∀ x y : SuspiciousAccount,
        suspiciousRel x y →
        [x, y].Sublist
          (c3scores.filterMap (fun p =>
            if p.2 ≤ 0 then none
            else some (mkSuspicious [] [] [] [] [] p.1 p.2))) →
        [x, y].Sublist (build_suspicious_accounts c3scores [] [] [] [] []) :=
  c3_sorted_by_score_stable c3scores [] [] [] [] []

/-! ## Claim C5: shell tags and ring ids on suspicious accounts -/

lemma mem_ite_nil {α : Type} {c : Prop} [Decidable c] {x : α} {l : List α} :
    x ∈ (if c then l else []) ↔ c ∧ x ∈ l := by
  split <;> simp_all

/-- Membership in `pattern_map[a]`. -/
lemma mem_patternMap {cycles : List CycleResult}
    {smurfing : List SmurfingResult} {shells : List ShellResult}
    {a tag : String} :
    tag ∈ patternMap cycles smurfing shells a ↔
      (∃ c ∈ cycles, a ∈ c.nodes ∧
        (tag = cycleTag c.length ∨
          (c.total_amount > 10000 ∧ tag = "high_value_cycle"))) ∨
      (∃ s ∈ smurfing, s.account_id = a ∧
        (tag = s.pattern_type ∨
          (s.velocity_per_hour > 5000 ∧ tag = "high_velocity") ∨
          (s.unique_counterparties > 20 ∧ tag = "structuring"))) ∨
      (∃ sh ∈ shells, a ∈ sh.chain ∧ tag = shellTag sh.shell_depth) := by
  simp only [patternMap, cyclePatterns, smurfPatterns, shellPatterns,
    List.mem_append, List.mem_flatMap, mem_ite_nil, List.mem_singleton,
    List.mem_cons, List.not_mem_nil, or_false, List.cons_append,
    List.nil_append]
  aesop

/-- Membership in `ring_map[a]`. -/
lemma mem_ringMap {cycles : List CycleResult}
    {smurfing : List SmurfingResult} {shells : List ShellResult}
    {a rid : String} :
    rid ∈ ringMap cycles smurfing shells a ↔
      (∃ c ∈ cycles, a ∈ c.nodes ∧ rid = c.ring_id) ∨
      (∃ s ∈ smurfing, s.account_id = a ∧ s.ring_id ≠ "" ∧ rid = s.ring_id) ∨
      (∃ sh ∈ shells, a ∈ sh.chain ∧ rid = sh.ring_id) := by
  simp only [ringMap, List.mem_append, List.mem_flatMap, mem_ite_nil,
    List.mem_singleton, List.not_mem_nil, or_false]
  aesop

lemma shellTag_ne_cycleTag (m n : ℕ) : shellTag m ≠ cycleTag n := by
  intro h
  have h1 : ("shell_depth_").data ++ natReprChars m =
      ("cycle_length_").data ++ natReprChars n := congrArg String.data h
  have h2 : (some 's' : Option Char) = some 'c' := congrArg List.head? h1
  simp at h2

lemma shellTag_ne_hvc (m : ℕ) : shellTag m ≠ "high_value_cycle" := by
  intro h
  have h1 : ("shell_depth_").data ++ natReprChars m =
      ("high_value_cycle").data := congrArg String.data h
  have h2 : (some 's' : Option Char) = some 'h' := congrArg List.head? h1
  simp at h2

lemma shellTag_ne_hv (m : ℕ) : shellTag m ≠ "high_velocity" := by
  intro h
  have h1 : ("shell_depth_").data ++ natReprChars m =
      ("high_velocity").data := congrArg String.data h
  have h2 : (some 's' : Option Char) = some 'h' := congrArg List.head? h1
  simp at h2

lemma shellTag_ne_structuring (m : ℕ) : shellTag m ≠ "structuring" := by
  intro h
  have h1 : ("shell_depth_").data ++ natReprChars m =
      ("structuring").data := congrArg String.data h
  have h2 : (some 'h' : Option Char) = some 't' :=
    congrArg (fun l => l.tail.head?) h1
  simp at h2

lemma shellTag_ne_fan_in (m : ℕ) : shellTag m ≠ "fan_in" := by
  intro h
  have h1 : ("shell_depth_").data ++ natReprChars m =
      ("fan_in").data := congrArg String.data h
  have h2 : (some 's' : Option Char) = some 'f' := congrArg List.head? h1
  simp at h2

lemma shellTag_ne_fan_out (m : ℕ) : shellTag m ≠ "fan_out" := by
  intro h
  have h1 : ("shell_depth_").data ++ natReprChars m =
      ("fan_out").data := congrArg String.data h
  have h2 : (some 's' : Option Char) = some 'f' := congrArg List.head? h1
  simp at h2

lemma mem_build_suspicious {scores : List (String × ℚ)}
    {cycles : List CycleResult} {smurfing : List SmurfingResult}
    {shells : List ShellResult} {profiles : List (String × AccountProfile)}
    {df : List Txn} {x : SuspiciousAccount}
    (hx : x ∈ build_suspicious_accounts scores cycles smurfing shells profiles df) :
    ∃ p ∈ scores, ¬(p.2 ≤ 0) ∧
      x = mkSuspicious cycles smurfing shells profiles df p.1 p.2 := by
  unfold build_suspicious_accounts at hx
  rw [(List.perm_insertionSort suspiciousRel _).mem_iff, List.mem_filterMap]
    at hx
  obtain ⟨p, hp, hsome⟩ := hx
  by_cases hle : p.2 ≤ 0
  · rw [if_pos hle] at hsome; cases hsome
  · rw [if_neg hle] at hsome
    exact ⟨p, hp, hle, (Option.some.injEq _ _ ▸ hsome).symm⟩

/-- **C5, counterexample.**  The source adds the shell tag and ring id for
every node of `sh.chain`, endpoints included: with one shell of chain
`[A,B,C,D]` (intermediates `[B,C]`, ring `RING_002`, depth 2) and a scores
entry only for the endpoint `A`, the emitted account `A` carries pattern
`shell_depth_2` and ring id `RING_002` although `A` is not an intermediate
and the shell contributed nothing to its score. -/
theorem c5_endpoint_gets_shell_tag :
    ∃ x ∈ build_suspicious_accounts [("A", 60)] [] []
        [{ ring_id := "RING_002", chain := ["A", "B", "C", "D"],
           intermediate_accounts := ["B", "C"], total_amount := 300,
           shell_depth := 2 }] [] [],
      x.account_id = "A" ∧ shellTag 2 ∈ x.detected_patterns ∧
        "RING_002" ∈ x.ring_ids ∧
        "A" ∉ (["B", "C"] : List String) := by
  refine ⟨mkSuspicious [] []
    [{ ring_id := "RING_002", chain := ["A", "B", "C", "D"],
       intermediate_accounts := ["B", "C"], total_amount := 300,
       shell_depth := 2 }] [] [] "A" 60, by decide, by decide⟩

/-- **C5, amended.**  Under the pipeline's shape assumptions (smurf
pattern types are `fan_in`/`fan_out`; cycle and smurf ring ids differ from
shell ring ids), an emitted account carries `shell_depth_{D}` of a shell,
resp. a shell's ring id, exactly when the account belongs to that shell's
**chain** — endpoints included, not only intermediates as the claim
states. -/
theorem c5_shell_tags_iff_chain_membership
    (scores : List (String × ℚ)) (cycles : List CycleResult)
    (smurfing : List SmurfingResult) (shells : List ShellResult)
    (profiles : List (String × AccountProfile)) (df : List Txn)
    (hpt : ∀ s ∈ smurfing, s.pattern_type = "fan_in" ∨ s.pattern_type = "fan_out")
    (hcy : ∀ c ∈ cycles, ∀ sh ∈ shells, c.ring_id ≠ sh.ring_id)
    (hsm : ∀ s ∈ smurfing, ∀ sh ∈ shells, s.ring_id ≠ sh.ring_id) :
    ∀ x ∈ build_suspicious_accounts scores cycles smurfing shells profiles df,
      ∀ sh₀ ∈ shells,
        (shellTag sh₀.shell_depth ∈ x.detected_patterns ↔
          ∃ sh ∈ shells, x.account_id ∈ sh.chain ∧
            shellTag sh.shell_depth = shellTag sh₀.shell_depth) ∧
        (sh₀.ring_id ∈ x.ring_ids ↔
          ∃ sh ∈ shells, x.account_id ∈ sh.chain ∧
            sh.ring_id = sh₀.ring_id) := by
  intro x hx sh₀ hsh₀
  obtain ⟨p, hp, hpos, rfl⟩ := mem_build_suspicious hx
  have hacct : (mkSuspicious cycles smurfing shells profiles df p.1
      p.2).account_id = p.1 := rfl
  have hpat : (mkSuspicious cycles smurfing shells profiles df p.1
      p.2).detected_patterns = (patternMap cycles smurfing shells p.1).dedup := rfl
  have hrid : (mkSuspicious cycles smurfing shells profiles df p.1
      p.2).ring_ids = (ringMap cycles smurfing shells p.1).dedup := rfl
  rw [hacct, hpat, hrid]
  constructor
  · rw [List.mem_dedup, mem_patternMap]
    constructor
    · rintro (⟨c, hc, hnode, htag | ⟨hamt, htag⟩⟩ | ⟨s, hs, heq, htags⟩ |
          ⟨sh, hsh, hnode, htag⟩)
      · exact absurd htag (shellTag_ne_cycleTag _ _)
      · exact absurd htag (shellTag_ne_hvc _)
      · rcases htags with htag | ⟨_, htag⟩ | ⟨_, htag⟩
        · rcases hpt s hs with hft | hft <;> rw [hft] at htag
          · exact absurd htag (shellTag_ne_fan_in _)
          · exact absurd htag (shellTag_ne_fan_out _)
        · exact absurd htag (shellTag_ne_hv _)
        · exact absurd htag (shellTag_ne_structuring _)
      · exact ⟨sh, hsh, hnode, htag.symm⟩
    · rintro ⟨sh, hsh, hnode, htag⟩
      exact Or.inr (Or.inr ⟨sh, hsh, hnode, htag.symm⟩)
  · rw [List.mem_dedup, mem_ringMap]
    constructor
    · rintro (⟨c, hc, hnode, hrid'⟩ | ⟨s, hs, heq, hne, hrid'⟩ |
          ⟨sh, hsh, hnode, hrid'⟩)
      · exact absurd hrid'.symm (hcy c hc sh₀ hsh₀)
      · exact absurd hrid'.symm (hsm s hs sh₀ hsh₀)
      · exact ⟨sh, hsh, hnode, hrid'.symm⟩
    · rintro ⟨sh, hsh, hnode, hrid'⟩
      exact Or.inr (Or.inr ⟨sh, hsh, hnode, hrid'.symm⟩)

/-- The shell of the C5 witness. -/
def c5shell : ShellResult :=
  { ring_id := "RING_002", chain := ["A", "B", "C", "D"],
    intermediate_accounts := ["B", "C"], total_amount := 300,
    shell_depth := 2 }

/-- The one-shell detection list of the C5 witness. -/
def c5shells : List ShellResult := [c5shell]

/-- The single suspicious-account entry emitted for the C5 witness
input. -/
def c5entry : SuspiciousAccount := mkSuspicious [] [] c5shells [] [] "A" 60

/-- Witness for C5 (amended): the theorem applied at the concrete shell
and scores input of the counterexample, fully instantiated at the one
emitted account and the one shell. -/
theorem c5_shell_tags_witness :
    (shellTag c5shell.shell_depth ∈ c5entry.detected_patterns ↔
      ∃ sh ∈ c5shells, c5entry.account_id ∈ sh.chain ∧
        shellTag sh.shell_depth = shellTag c5shell.shell_depth) ∧
    (c5shell.ring_id ∈ c5entry.ring_ids ↔
      ∃ sh ∈ c5shells, c5entry.account_id ∈ sh.chain ∧
        sh.ring_id = c5shell.ring_id) :=
  c5_shell_tags_iff_chain_membership [("A", 60)] [] [] c5shells [] []
    (by intro s hs; cases hs) (by intro c hc; cases hc)
    (by intro s hs; cases hs) c5entry (by decide) c5shell (by decide)

/-! ## Smurfing detector (`smurfing_detector._detect_fan`)

Timestamps are compared in seconds; the 72 h window is 259 200 s.
`df.sort_values` and the sorted group keys of `df.groupby` are modelled
with the stable `insertionSort`. -/

/-- Sort relation of `sort_values("timestamp")`. -/
def tsRel (x y : Txn) : Prop := x.timestamp ≤ y.timestamp

instance : DecidableRel tsRel := fun x y =>
  inferInstanceAs (Decidable (x.timestamp ≤ y.timestamp))

/-- Kernel-evaluable lexicographic comparison of char lists (the order of
pandas group keys). -/
def charListLe : List Char → List Char → Bool
  | [], _ => true
  | _ :: _, [] => false
  | a :: as, b :: bs =>
      if a < b then true else if b < a then false else charListLe as bs

/-- Group-key order of `df.groupby` (keys sorted ascending). -/
def keyRel (a b : String) : Prop := charListLe a.data b.data = true

instance : DecidableRel keyRel := fun a b =>
  inferInstanceAs (Decidable (charListLe a.data b.data = true))

/-- The `while ts[right] - ts[left] > window: left += 1` loop;
`fuel ≥ right - l` makes it run to completion. -/
def shrinkLeft (ts : List ℤ) (w : ℤ) (right : ℕ) : ℕ → ℕ → ℕ
  | 0, l => l
  | fuel + 1, l =>
      if l < right ∧ w < ts.getD right 0 - ts.getD l 0 then
        shrinkLeft ts w right fuel (l + 1)
      else l

/-- State of the two-pointer loop: `left`, best unique count, best window
bounds (None before the first update), best window total. -/
structure FanState where
  left : ℕ
  bestUnique : ℕ
  bestStart : Option ℤ
  bestEnd : Option ℤ
  bestTotal : ℚ
deriving Repr

/-- Initial state (`left = 0`, `best_unique = 0`, windows `None`). -/
def fanInit : FanState := ⟨0, 0, none, none, 0⟩

/-- One iteration of `for right in range(n)`. -/
def fanStep (ts : List ℤ) (cps : List String) (amts : List ℚ) (w : ℤ)
    (st : FanState) (right : ℕ) : FanState :=
  let l := shrinkLeft ts w right (right - st.left) st.left
  let u := ((cps.drop l).take (right + 1 - l)).dedup.length
  let total := ((amts.drop l).take (right + 1 - l)).sum
  if st.bestUnique < u then
    ⟨l, u, some (ts.getD l 0), some (ts.getD right 0), total⟩
  else
    ⟨l, st.bestUnique, st.bestStart, st.bestEnd, st.bestTotal⟩

/-- The full two-pointer sweep. -/
def fanLoop (ts : List ℤ) (cps : List String) (amts : List ℚ) (w : ℤ)
    (n : ℕ) : FanState :=
  (List.range n).foldl (fanStep ts cps amts w) fanInit

/-- `_detect_fan` restricted to one group (`acct`, its rows `grp`). -/
def detectFanGroup (counter : Txn → String) (pattern : String)
    (threshold : ℕ) (w : ℤ) (acct : String) (grp : List Txn) :
    List SmurfingResult :=
  let grps := grp.insertionSort tsRel
  let ts := grps.map Txn.timestamp
  let cps := grps.map counter
  let amts := grps.map Txn.amount
  let n := grps.length
  if n < threshold then []
  else
    let st := fanLoop ts cps amts w n
    match st.bestStart, st.bestEnd with
    | some bs, some be =>
        if threshold ≤ st.bestUnique then
          let hoursSpan := max (((be - bs : ℤ) : ℚ) / 3600) 1
          let velocity := st.bestTotal / hoursSpan
          [{ account_id := acct, pattern_type := pattern,
             unique_counterparties := st.bestUnique,
             total_amount := round2q st.bestTotal,
             velocity_per_hour := round2q velocity,
             window_start := bs, window_end := be, ring_id := "" }]
        else []
    | _, _ => []

/-- `_detect_fan`: group by `group`, iterate groups in sorted key order,
run the sweep per group. -/
def detect_fan (df : List Txn) (group counter : Txn → String)
    (pattern : String) (threshold : ℕ) (w : ℤ) : List SmurfingResult :=
  (((df.map group).dedup.insertionSort keyRel)).flatMap (fun k =>
    detectFanGroup counter pattern threshold w k
      (df.filter (fun t => group t == k)))

/-- `detect_smurfing` with default parameters (threshold 10, 72 h
window): fan-in pass then fan-out pass on the timestamp-sorted table. -/
def detect_smurfing (df : List Txn) : List SmurfingResult :=
  let dfs := df.insertionSort tsRel
  detect_fan dfs Txn.receiver Txn.sender "fan_in" 10 259200 ++
    detect_fan dfs Txn.sender Txn.receiver "fan_out" 10 259200

/-! ## Claim C7: smurfing invariants -/

lemma shrinkLeft_le (ts : List ℤ) (w : ℤ) (right : ℕ) :
    ∀ fuel l, l ≤ right → shrinkLeft ts w right fuel l ≤ right := by
  intro fuel
  induction fuel with
  | zero => intro l hl; exact hl
  | succ fuel ih =>
    intro l hl
    rw [shrinkLeft]
    split
    · next h => exact ih (l + 1) h.1
    · exact hl

lemma shrinkLeft_post (ts : List ℤ) (w : ℤ) (right : ℕ) :
    ∀ fuel l, l ≤ right → right ≤ l + fuel →
      shrinkLeft ts w right fuel l = right ∨
        ts.getD right 0 - ts.getD (shrinkLeft ts w right fuel l) 0 ≤ w := by
  intro fuel
  induction fuel with
  | zero =>
    intro l hl hr
    exact Or.inl (by simp only [shrinkLeft]; omega)
  | succ fuel ih =>
    intro l hl hr
    rw [shrinkLeft]
    split
    · next h => exact ih (l + 1) h.1 (by omega)
    · next h =>
      rw [not_and_or, not_lt, not_lt] at h
      rcases h with h | h
      · exact Or.inl (by omega)
      · exact Or.inr h

lemma fanLoop_inv (ts : List ℤ) (cps : List String) (amts : List ℚ)
    (w : ℤ) (hw : 0 ≤ w) (n : ℕ) :
    (fanLoop ts cps amts w n).left ≤ n ∧
      ∀ bs be, (fanLoop ts cps amts w n).bestStart = some bs →
        (fanLoop ts cps amts w n).bestEnd = some be → be - bs ≤ w := by
  induction n with
  | zero =>
    constructor
    · exact Nat.le_refl 0
    · intro bs be h1 _
      simp [fanLoop, fanInit] at h1
  | succ n ih =>
    have hstep : fanLoop ts cps amts w (n + 1) =
        fanStep ts cps amts w (fanLoop ts cps amts w n) n := by
      unfold fanLoop
      rw [List.range_succ, List.foldl_append, List.foldl_cons, List.foldl_nil]
    rw [hstep]
    set st := fanLoop ts cps amts w n with hst
    have hl : st.left ≤ n := ih.1
    have hln : shrinkLeft ts w n (n - st.left) st.left ≤ n :=
      shrinkLeft_le ts w n _ st.left hl
    have hpost := shrinkLeft_post ts w n (n - st.left) st.left hl (by omega)
    simp only [fanStep]
    split
    · refine ⟨by simpa using Nat.le_succ_of_le hln, ?_⟩
      intro bs be h1 h2
      simp only [Option.some.injEq] at h1 h2
      subst h1; subst h2
      rcases hpost with h | h
      · rw [h]; simpa using hw
      · exact h
    · refine ⟨by simpa using Nat.le_succ_of_le hln, ?_⟩
      intro bs be h1 h2
      exact ih.2 bs be h1 h2

lemma detectFanGroup_inv (counter : Txn → String) (pattern : String)
    (acct : String) (grp : List Txn) :
    ∀ s ∈ detectFanGroup counter pattern 10 259200 acct grp,
      10 ≤ s.unique_counterparties ∧
        s.window_end - s.window_start ≤ 259200 ∧
        ∃ bt : ℚ, s.total_amount = round2q bt ∧
          s.velocity_per_hour =
            round2q (bt /
              max (((s.window_end - s.window_start : ℤ) : ℚ) / 3600) 1) := by
  intro s hs
  simp only [detectFanGroup] at hs
  split at hs
  · cases hs
  · rename_i hn
    set grps := grp.insertionSort tsRel with hgrps
    set st := fanLoop (grps.map Txn.timestamp) (grps.map counter)
      (grps.map Txn.amount) 259200 grps.length with hstd
    rcases h1 : st.bestStart with _ | bs <;> rcases h2 : st.bestEnd with _ | be <;>
        rw [h1, h2] at hs <;> dsimp only at hs
    · simp at hs
    · simp at hs
    · simp at hs
    · split at hs
      · rename_i hthr
        rw [List.mem_singleton] at hs
        subst hs
        rw [hstd] at h1 h2
        have hspan := (fanLoop_inv (grps.map Txn.timestamp) (grps.map counter)
          (grps.map Txn.amount) 259200 (by norm_num) grps.length).2 bs be h1 h2
        exact ⟨hthr, hspan, st.bestTotal, rfl, rfl⟩
      · simp at hs

/-- **C7, amended.**  Every emitted `SmurfingResult` (default parameters)
has `unique_counterparties ≥ 10`, a window span of at most 72 h, and
`velocity_per_hour = round(total / max(hours_span, 1.0), 2)` where `total`
is the un-rounded best window sum (whose 2-decimal rounding is the emitted
`total_amount`) — i.e. the claim's equation holds only up to the source's
2-decimal rounding of the two emitted fields. -/
theorem c7_smurfing_invariants (df : List Txn) :
    ∀ s ∈ detect_smurfing df,
      10 ≤ s.unique_counterparties ∧
        s.window_end - s.window_start ≤ 259200 ∧
        ∃ bt : ℚ, s.total_amount = round2q bt ∧
          s.velocity_per_hour =
            round2q (bt /
              max (((s.window_end - s.window_start : ℤ) : ℚ) / 3600) 1) := by
  intro s hs
  unfold detect_smurfing detect_fan at hs
  rw [List.mem_append] at hs
  rcases hs with hs | hs <;>
    (rw [List.mem_flatMap] at hs; obtain ⟨k, _, hk⟩ := hs;
     exact detectFanGroup_inv _ _ k _ s hk)

/-- The C7 counterexample dataframe: one sender `S`, ten distinct
receivers, 0.1 each, spaced one hour apart (span 9 h, total 1.0). -/
def c7df : List Txn :=
  [⟨"S", "R0", 1/10, 0⟩, ⟨"S", "R1", 1/10, 3600⟩, ⟨"S", "R2", 1/10, 7200⟩,
   ⟨"S", "R3", 1/10, 10800⟩, ⟨"S", "R4", 1/10, 14400⟩,
   ⟨"S", "R5", 1/10, 18000⟩, ⟨"S", "R6", 1/10, 21600⟩,
   ⟨"S", "R7", 1/10, 25200⟩, ⟨"S", "R8", 1/10, 28800⟩,
   ⟨"S", "R9", 1/10, 32400⟩]

unseal Rat.add Rat.mul Rat.sub Rat.inv in
/-- **C7, counterexample.**  On `c7df` the detector emits one fan-out
result with `total_amount = 1.0`, window span 9 h, and
`velocity_per_hour = round(1/9, 2) = 0.11`; the claim's equation
`velocity_per_hour = total_amount / max(hours_span, 1.0) = 1/9` fails
because the source rounds the velocity to two decimals before emitting. -/
theorem c7_velocity_is_rounded :
    detect_smurfing c7df =
      [{ account_id := "S", pattern_type := "fan_out",
         unique_counterparties := 10, total_amount := 1,
         velocity_per_hour := 11/100, window_start := 0,
         window_end := 32400, ring_id := "" }] ∧
      (11/100 : ℚ) ≠ 1 / max (((32400 - 0 : ℤ) : ℚ) / 3600) 1 := by
  constructor
  · decide
  · norm_num

/-- The record `detect_smurfing` emits on `c7df`. -/
def c7rec : SmurfingResult :=
  { account_id := "S", pattern_type := "fan_out",
    unique_counterparties := 10, total_amount := 1,
    velocity_per_hour := 11/100, window_start := 0,
    window_end := 32400, ring_id := "" }

unseal Rat.add Rat.mul Rat.sub Rat.inv in
/-- Witness for C7 (amended): the theorem applied at the concrete
dataframe and its emitted result. -/
theorem c7_smurfing_witness :
    10 ≤ c7rec.unique_counterparties ∧
      c7rec.window_end - c7rec.window_start ≤ 259200 ∧
      ∃ bt : ℚ, c7rec.total_amount = round2q bt ∧
        c7rec.velocity_per_hour =
          round2q (bt /
            max (((c7rec.window_end - c7rec.window_start : ℤ) : ℚ) / 3600) 1) :=
  c7_smurfing_invariants c7df c7rec (by decide)

/-! ## Cycle detector (`cycle_detector.detect_cycles`)

`nx.simple_cycles(simple_G, length_bound=max_length)` is library code; it
is abstracted as an input stream of `Option (List String)`: `some c` is a
yielded cycle, `none` marks the enumerator raising at that point (the
`try/except` then returns everything accepted so far).  Its documented
guarantee — only simple cycles of length at most `length_bound` — enters
the theorems as a hypothesis where needed. -/

/-- `edge_data[(u, v)]`: every `(amount, timestamp)` with sender `u` and
receiver `v`. -/
def edgeTxns (df : List Txn) (u v : String) : List (ℚ × ℤ) :=
  (df.filter (fun t => t.sender == u && t.receiver == v)).map
    (fun t => (t.amount, t.timestamp))

/-- The per-edge transaction lists of a cycle, in cycle order with the
wrapping closing edge. -/
def cycleEdges (df : List Txn) (c : List String) : List (List (ℚ × ℤ)) :=
  (List.range c.length).map (fun i =>
    edgeTxns df (c.getD i "") (c.getD ((i + 1) % c.length) ""))

/-- All timestamps collected across a cycle's edges. -/
def cycleTimestamps (df : List Txn) (c : List String) : List ℤ :=
  (cycleEdges df c).flatMap (fun e => e.map Prod.snd)

/-- The body of the enumeration loop for one candidate cycle: length and
edge checks, then the temporal-coherence test; `ringNum` is the value of
the ring counter if the cycle is accepted. -/
def acceptCycle (df : List Txn) (window : ℤ) (ringNum : ℕ)
    (c : List String) : Option CycleResult :=
  if c.length < 3 then none
  else
    let edges := cycleEdges df c
    if edges.any List.isEmpty then none
    else
      let allTs := (edges.flatMap (fun e => e.map Prod.snd))
      let total : ℚ := (edges.flatMap (fun e => e.map Prod.fst)).sum
      match allTs with
      | [] => none
      | t0 :: rest =>
          let minTs := rest.foldl min t0
          let maxTs := rest.foldl max t0
          let span := maxTs - minTs
          if span ≤ window then
            some { ring_id := ringStr ringNum, nodes := c,
                   length := c.length, total_amount := round2q total,
                   time_span_hours := round2q ((span : ℚ) / 3600),
                   edge_count := c.length, pattern_type := "cycle" }
          else none

/-- The enumeration loop: `accepted` counts accepted cycles so far; a
`none` item models the enumerator raising (the `except` clause returns
the list built so far); after the 5 000th acceptance the loop breaks. -/
def detectCyclesGo (df : List Txn) (window : ℤ) :
    List (Option (List String)) → ℕ → List CycleResult
  | [], _ => []
  | none :: _, _ => []
  | some c :: rest, accepted =>
      match acceptCycle df window (accepted + 1) c with
      | none => detectCyclesGo df window rest accepted
      | some r =>
          if 5000 ≤ accepted + 1 then [r]
          else r :: detectCyclesGo df window rest (accepted + 1)

/-- `detect_cycles` with default parameters (length bound 5 via the
enumerator, 72 h window). -/
def detect_cycles (df : List Txn) (enum : List (Option (List String))) :
    List CycleResult :=
  detectCyclesGo df 259200 enum 0

/-! ## Claim C6: cycle invariants -/

lemma foldl_min_le (t0 : ℤ) (l : List ℤ) :
    ∀ x ∈ t0 :: l, l.foldl min t0 ≤ x := by
  induction l generalizing t0 with
  | nil => intro x hx; simp at hx; simp [hx]
  | cons a l ih =>
    intro x hx
    rw [List.foldl_cons]
    rcases List.mem_cons.mp hx with rfl | hx'
    · exact le_trans (ih (min x a) (min x a) (by simp)) (min_le_left x a)
    · rcases List.mem_cons.mp hx' with rfl | hx'
      · exact le_trans (ih (min t0 x) (min t0 x) (by simp)) (min_le_right t0 x)
      · exact ih (min t0 a) x (by simp [hx'])

lemma le_foldl_max (t0 : ℤ) (l : List ℤ) :
    ∀ x ∈ t0 :: l, x ≤ l.foldl max t0 := by
  induction l generalizing t0 with
  | nil => intro x hx; simp at hx; simp [hx]
  | cons a l ih =>
    intro x hx
    rw [List.foldl_cons]
    rcases List.mem_cons.mp hx with rfl | hx'
    · exact le_trans (le_max_left x a) (ih (max x a) (max x a) (by simp))
    · rcases List.mem_cons.mp hx' with rfl | hx'
      · exact le_trans (le_max_right t0 x) (ih (max t0 x) (max t0 x) (by simp))
      · exact ih (max t0 a) x (by simp [hx'])

/-- Inversion of `acceptCycle`: an accepted cycle passed every check. -/
lemma acceptCycle_some {df : List Txn} {window : ℤ} {k : ℕ}
    {c : List String} {r : CycleResult}
    (h : acceptCycle df window k c = some r) :
    r.nodes = c ∧ 3 ≤ c.length ∧
      (∀ e ∈ cycleEdges df c, e ≠ []) ∧
      (∀ t1 ∈ cycleTimestamps df c, ∀ t2 ∈ cycleTimestamps df c,
        t1 - t2 ≤ window) := by
  simp only [acceptCycle] at h
  split at h
  · cases h
  · rename_i hlen
    split at h
    · cases h
    · rename_i hne
      split at h
      · cases h
      · rename_i t0 rest hts
        split at h
        · rename_i hspan
          rw [Option.some.injEq] at h
          subst h
          refine ⟨rfl, by omega, ?_, ?_⟩
          · intro e he hemp
            rw [Bool.not_eq_true, List.any_eq_false] at hne
            exact hne e he (by simp [hemp])
          · intro t1 ht1 t2 ht2
            rw [cycleTimestamps, hts] at ht1 ht2
            have h1 := le_foldl_max t0 rest t1 ht1
            have h2 := foldl_min_le t0 rest t2 ht2
            omega
        · cases h

/-- **C6 (confirmed).**  Provided the enumerated candidates respect the
`length_bound` of 5 (the documented behaviour of `nx.simple_cycles`),
every emitted `CycleResult` with default parameters has between 3 and 5
nodes, at least one transaction on every consecutive (wrapping) node
pair, and all transactions on its edges within a 72 h span. -/
theorem c6_cycle_invariants (df : List Txn)
    (enum : List (Option (List String)))
    (henum : ∀ c : List String, some c ∈ enum → c.length ≤ 5) :
    ∀ r ∈ detect_cycles df enum,
      (3 ≤ r.nodes.length ∧ r.nodes.length ≤ 5) ∧
        (∀ i < r.nodes.length,
          edgeTxns df (r.nodes.getD i "")
            (r.nodes.getD ((i + 1) % r.nodes.length) "") ≠ []) ∧
        (∀ t1 ∈ cycleTimestamps df r.nodes,
          ∀ t2 ∈ cycleTimestamps df r.nodes, t1 - t2 ≤ 259200) := by
  unfold detect_cycles
  suffices h : ∀ acc,
      (∀ c : List String, some c ∈ enum → c.length ≤ 5) →
      ∀ r ∈ detectCyclesGo df 259200 enum acc,
        (3 ≤ r.nodes.length ∧ r.nodes.length ≤ 5) ∧
          (∀ i < r.nodes.length,
            edgeTxns df (r.nodes.getD i "")
              (r.nodes.getD ((i + 1) % r.nodes.length) "") ≠ []) ∧
          (∀ t1 ∈ cycleTimestamps df r.nodes,
            ∀ t2 ∈ cycleTimestamps df r.nodes, t1 - t2 ≤ 259200) by
    exact h 0 henum
  clear henum
  induction enum with
  | nil => intro acc _ r hr; cases hr
  | cons o rest ih =>
    intro acc hlen5 r hr
    match o with
    | none => cases hr
    | some c =>
      rw [detectCyclesGo] at hr
      have hrec := fun (a : ℕ) => ih a (fun c' hc' => hlen5 c' (by simp [hc']))
      split at hr
      · exact hrec acc r hr
      · rename_i r' hacc
        have hinv := acceptCycle_some hacc
        have hc5 : c.length ≤ 5 := hlen5 c (by simp)
        have hr' : (3 ≤ r'.nodes.length ∧ r'.nodes.length ≤ 5) ∧
            (∀ i < r'.nodes.length,
              edgeTxns df (r'.nodes.getD i "")
                (r'.nodes.getD ((i + 1) % r'.nodes.length) "") ≠ []) ∧
            (∀ t1 ∈ cycleTimestamps df r'.nodes,
              ∀ t2 ∈ cycleTimestamps df r'.nodes, t1 - t2 ≤ 259200) := by
          obtain ⟨hnodes, h3, hne, hspan⟩ := hinv
          rw [hnodes]
          refine ⟨⟨h3, hc5⟩, ?_, hspan⟩
          intro i hi
          have : edgeTxns df (c.getD i "") (c.getD ((i + 1) % c.length) "") ∈
              cycleEdges df c := by
            rw [cycleEdges]
            exact List.mem_map.mpr ⟨i, List.mem_range.mpr hi, rfl⟩
          exact hne _ this
        split at hr
        · rw [List.mem_singleton] at hr; subst hr; exact hr'
        · rcases List.mem_cons.mp hr with rfl | hr''
          · exact hr'
          · exact hrec (acc + 1) r hr''

/-- The triangle dataframe of end-to-end scenario 1. -/
def c6df : List Txn :=
  [⟨"A", "B", 5000, 0⟩, ⟨"B", "C", 5000, 3600⟩, ⟨"C", "A", 5000, 7200⟩]

/-- The enumerator stream yielding the one simple cycle of `c6df`. -/
def c6enum : List (Option (List String)) := [some ["A", "B", "C"]]

unseal Rat.add Rat.mul Rat.sub Rat.inv in
/-- Witness for C6: the theorem applied to the concrete triangle, whose
enumeration yields one cycle, which is accepted. -/
theorem c6_witness :
    (detect_cycles c6df c6enum).length = 1 ∧
      ∀ r ∈ detect_cycles c6df c6enum,
        (3 ≤ r.nodes.length ∧ r.nodes.length ≤ 5) ∧
          (∀ i < r.nodes.length,
            edgeTxns c6df (r.nodes.getD i "")
              (r.nodes.getD ((i + 1) % r.nodes.length) "") ≠ []) ∧
          (∀ t1 ∈ cycleTimestamps c6df r.nodes,
            ∀ t2 ∈ cycleTimestamps c6df r.nodes, t1 - t2 ≤ 259200) :=
  ⟨by decide, c6_cycle_invariants c6df c6enum
    (by intro c hc; simp [c6enum] at hc; subst hc; decide)⟩

/-! ## Claim C9: partial results on enumerator failure, 5 000 cap -/

lemma detectCyclesGo_none (df : List Txn) (window : ℤ) :
    ∀ (pre : List (List String)) (rest : List (Option (List String)))
      (acc : ℕ),
      detectCyclesGo df window (pre.map some ++ none :: rest) acc =
        detectCyclesGo df window (pre.map some) acc := by
  intro pre
  induction pre with
  | nil => intro rest acc; rfl
  | cons c pre ih =>
    intro rest acc
    rw [List.map_cons, List.cons_append, detectCyclesGo, detectCyclesGo]
    split
    · exact ih rest acc
    · split
      · rfl
      · rw [ih rest (acc + 1)]

lemma detectCyclesGo_length (df : List Txn) (window : ℤ) :
    ∀ (enum : List (Option (List String))) (acc : ℕ), acc ≤ 4999 →
      (detectCyclesGo df window enum acc).length ≤ 5000 - acc := by
  intro enum
  induction enum with
  | nil => intro acc _; simp [detectCyclesGo]
  | cons o rest ih =>
    intro acc hacc
    match o with
    | none => simp [detectCyclesGo]
    | some c =>
      rw [detectCyclesGo]
      split
      · exact le_trans (ih acc hacc) le_rfl
      · split
        · next h => simp; omega
        · next h =>
          rw [List.length_cons]
          have := ih (acc + 1) (by omega)
          omega

/-- **C9 (confirmed).**  If the enumerator raises after yielding the
cycles of `pre` (the `none` marker), `detect_cycles` returns exactly what
it accepts from `pre` — the same output as a clean run on `pre` — and in
every case at most 5 000 cycles are returned. -/
theorem c9_partial_results_and_cap (df : List Txn)
    (pre : List (List String)) (rest : List (Option (List String)))
    (enum : List (Option (List String))) :
    detect_cycles df (pre.map some ++ none :: rest) =
        detect_cycles df (pre.map some) ∧
      (detect_cycles df enum).length ≤ 5000 := by
  constructor
  · exact detectCyclesGo_none df 259200 pre rest 0
  · simpa using detectCyclesGo_length df 259200 enum 0 (by omega)

/-! ## Shell detector (`detectors/shell_detector.detect_shells`)

This is the variant `main.py` binds (the module
`.detectors.shell_detector`): degree-based source/sink selection, 200 simple
paths per pair (`islice(paths, 200)`), `_MAX_PATHS = 2000`.
`nx.all_simple_paths(simple_G, source, target, cutoff)` is modelled by a
depth-first enumeration over the simple projection with an edge-count
cutoff. -/

/-- The simple projection `nx.DiGraph(G)`: one `(u, v)` pair per distinct
multigraph edge, in first-occurrence order. -/
def simpleEdges (df : List Txn) : List (String × String) :=
  ((graphEdges df).map (fun t => (t.sender, t.receiver))).dedup

/-- Out-degree on the simple projection. -/
def outDegS (df : List Txn) (n : String) : ℕ :=
  (simpleEdges df).countP (fun e => e.1 == n)

/-- In-degree on the simple projection. -/
def inDegS (df : List Txn) (n : String) : ℕ :=
  (simpleEdges df).countP (fun e => e.2 == n)

/-- `shell_candidates = { n : 0 < transaction_count(n) <= 3 }`. -/
def shellCandidatesList (df : List Txn) : List String :=
  (nodesOf df).filter (fun n =>
    decide (0 < transaction_count df n) && decide (transaction_count df n ≤ 3))

/-- `sources`: in-degree 0 or out-degree exceeding in-degree, falling back
to all nodes when empty. -/
def sourcesOf (df : List Txn) : List String :=
  let s := (nodesOf df).filter (fun n =>
    decide (inDegS df n = 0) || decide (inDegS df n < outDegS df n))
  if s.isEmpty then nodesOf df else s

/-- `sinks`: out-degree 0 or in-degree exceeding out-degree, falling back
to all nodes when empty. -/
def sinksOf (df : List Txn) : List String :=
  let s := (nodesOf df).filter (fun n =>
    decide (outDegS df n = 0) || decide (outDegS df n < inDegS df n))
  if s.isEmpty then nodesOf df else s

/-- Adjacency of the simple projection, in edge insertion order. -/
def adjOf (df : List Txn) (u : String) : List String :=
  (((simpleEdges df).filter (fun e => e.1 == u)).map Prod.snd)

/-- Depth-first enumeration of the simple paths from `u` to `tgt` with at
most `fuel` edges, avoiding `vis` (the nodes already on the path); models
`nx.all_simple_paths` with `cutoff = fuel`. -/
def dfsPaths (adj : String → List String) (tgt : String) :
    ℕ → String → List String → List (List String)
  | fuel, u, vis =>
    if u = tgt then [[u]]
    else
      match fuel with
      | 0 => []
      | f + 1 =>
          ((adj u).filter (fun v => !vis.contains v)).flatMap
            (fun v => (dfsPaths adj tgt f v (v :: vis)).map (u :: ·))

/-- The pass-through test on the intermediates: both flows positive and
`min/max ≥ 0.5` for each. -/
def isPassThrough (df : List Txn) (inter : List String) : Bool :=
  inter.all (fun n =>
    let i := total_inflow df n
    let o := total_outflow df n
    if 0 < i ∧ 0 < o then decide ((1 : ℚ)/2 ≤ min i o / max i o) else false)

/-- `_chain_amount`: the sum over consecutive pairs of every transaction
amount on that pair (despite the "bottleneck" docstring). -/
def chain_amount (df : List Txn) (path : List String) : ℚ :=
  ((List.range (path.length - 1)).map (fun i =>
    (((graphEdges df).filter (fun t =>
        t.sender == path.getD i "" &&
          t.receiver == path.getD (i + 1) "")).map Txn.amount).sum)).sum

/-- Loop state of `detect_shells`: retained results, seen chains, ring
counter. -/
structure ShellState where
  out : List ShellResult
  seen : List (List String)
  cnt : ℕ

/-- The body of the path loop for one candidate path. -/
def processPath (df : List Txn) (cands : List String) (st : ShellState)
    (path : List String) : ShellState :=
  if path.length - 1 < 3 then st
  else
    let inter := (path.drop 1).dropLast
    if inter.isEmpty then st
    else if !(inter.all (fun n => cands.contains n)) then st
    else if st.seen.contains path then st
    else
      let st1 : ShellState := ⟨st.out, path :: st.seen, st.cnt⟩
      if !(isPassThrough df inter) then st1
      else
        { out := st1.out ++
            [{ ring_id := ringStr (st.cnt + 1), pattern_type := "shell",
               chain := path, intermediate_accounts := inter,
               total_amount := round2q (chain_amount df path),
               shell_depth := inter.length }],
          seen := st1.seen, cnt := st.cnt + 1 }

/-- `for path in islice(paths, 200)` with the `ring_counter >= 2000`
break after each append. -/
def pathLoop (df : List Txn) (cands : List String) :
    ShellState → List (List String) → ShellState
  | st, [] => st
  | st, p :: rest =>
      let st' := processPath df cands st p
      if 2000 ≤ st'.cnt then st' else pathLoop df cands st' rest

/-- `for target in sinks` (no counter check between targets). -/
def targetLoop (df : List Txn) (cands : List String)
    (adj : String → List String) (source : String) :
    ShellState → List String → ShellState
  | st, [] => st
  | st, t :: rest =>
      if source == t then targetLoop df cands adj source st rest
      else
        targetLoop df cands adj source
          (pathLoop df cands st ((dfsPaths adj t 6 source [source]).take 200))
          rest

/-- `for source in sources` with the counter check at the top. -/
def sourceLoop (df : List Txn) (cands : List String)
    (adj : String → List String) (sinks : List String) :
    ShellState → List String → ShellState
  | st, [] => st
  | st, s :: rest =>
      if 2000 ≤ st.cnt then st
      else sourceLoop df cands adj sinks (targetLoop df cands adj s st sinks) rest

/-- `detect_shells` (pipeline variant) with default parameters. -/
def detect_shells (df : List Txn) : List ShellResult :=
  let cands := shellCandidatesList df
  if cands.isEmpty then []
  else
    (sourceLoop df cands (adjOf df) (sinksOf df) ⟨[], [], 0⟩
      (sourcesOf df)).out

/-! ## Claim C2: source/sink selection and caps -/

/-- Modelled from the spec: the claim's source selection — non-candidate
predecessors of shell candidates (the optimized detector variant's rule,
not the pipeline's).  Used only to exhibit the divergence. -/
def specSources (df : List Txn) : List String :=
  (nodesOf df).filter (fun n =>
    decide (n ∉ shellCandidatesList df ∧
      ∃ c ∈ shellCandidatesList df, (n, c) ∈ simpleEdges df))

/-- The chain `S→B→C→D` with all four nodes low-activity. -/
def c2df : List Txn :=
  [⟨"S", "B", 100, 0⟩, ⟨"B", "C", 100, 3600⟩, ⟨"C", "D", 100, 7200⟩]

unseal Rat.add Rat.mul Rat.sub Rat.inv in
/-- **C2, counterexample.**  On `c2df` every node is a shell candidate, so
the claim's source set (non-candidate predecessors of candidates) is
empty and the claimed detector would emit nothing; the pipeline's
detector (degree-based selection: `in_degree == 0 or out_degree >
in_degree`) emits the chain `[S,B,C,D]` whose source `S` is itself a
candidate. -/
theorem c2_pipeline_selection_differs :
    (detect_shells c2df).map ShellResult.chain = [["S", "B", "C", "D"]] ∧
      "S" ∈ shellCandidatesList c2df ∧ specSources c2df = [] := by decide

lemma processPath_cnt (df : List Txn) (cands : List String)
    (st : ShellState) (p : List String) :
    st.cnt ≤ (processPath df cands st p).cnt ∧
      (processPath df cands st p).cnt ≤ st.cnt + 1 := by
  simp only [processPath]
  repeat' split
  all_goals simp

lemma pathLoop_cnt (df : List Txn) (cands : List String) :
    ∀ (l : List (List String)) (st : ShellState),
      st.cnt ≤ (pathLoop df cands st l).cnt ∧
      (st.cnt < 2000 → (pathLoop df cands st l).cnt ≤ 2000) ∧
      (2000 ≤ st.cnt → (pathLoop df cands st l).cnt ≤ st.cnt + 1) := by
  intro l
  induction l with
  | nil =>
    intro st
    rw [pathLoop]
    exact ⟨le_rfl, fun _ => by omega, fun _ => by omega⟩
  | cons p rest ih =>
    intro st
    rw [pathLoop]
    have hp := processPath_cnt df cands st p
    split
    · next h => exact ⟨by omega, fun _ => by omega, fun _ => by omega⟩
    · next h =>
      have := ih (processPath df cands st p)
      exact ⟨by omega, fun _ => by omega, fun _ => by omega⟩

lemma targetLoop_cnt (df : List Txn) (cands : List String)
    (adj : String → List String) (source : String) :
    ∀ (tl : List String) (st : ShellState),
      (targetLoop df cands adj source st tl).cnt ≤
        max st.cnt 2000 + tl.length := by
  intro tl
  induction tl with
  | nil => intro st; rw [targetLoop]; omega
  | cons t rest ih =>
    intro st
    rw [targetLoop]
    split
    · have := ih st
      simp only [List.length_cons]
      omega
    · have hpl := pathLoop_cnt df cands
        ((dfsPaths adj t 6 source [source]).take 200) st
      have := ih (pathLoop df cands st ((dfsPaths adj t 6 source [source]).take 200))
      simp only [List.length_cons]
      rcases Nat.lt_or_ge st.cnt 2000 with hlt | hge
      · have h1 := hpl.2.1 hlt
        omega
      · have h2 := hpl.2.2 hge
        omega

lemma sourceLoop_cnt (df : List Txn) (cands : List String)
    (adj : String → List String) (sinks : List String) :
    ∀ (sl : List String) (st : ShellState),
      (sourceLoop df cands adj sinks st sl).cnt ≤
        max st.cnt (2000 + sinks.length) := by
  intro sl
  induction sl with
  | nil => intro st; rw [sourceLoop]; omega
  | cons s rest ih =>
    intro st
    rw [sourceLoop]
    split
    · omega
    · next h =>
      have h1 := targetLoop_cnt df cands adj s sinks st
      have h2 := ih (targetLoop df cands adj s st sinks)
      omega

lemma processPath_outlen (df : List Txn) (cands : List String)
    (st : ShellState) (p : List String)
    (h : st.out.length = st.cnt) :
    (processPath df cands st p).out.length = (processPath df cands st p).cnt := by
  simp only [processPath]
  repeat' split
  all_goals simp [h]

lemma pathLoop_outlen (df : List Txn) (cands : List String) :
    ∀ (l : List (List String)) (st : ShellState),
      st.out.length = st.cnt →
      (pathLoop df cands st l).out.length = (pathLoop df cands st l).cnt := by
  intro l
  induction l with
  | nil => intro st h; exact h
  | cons p rest ih =>
    intro st h
    rw [pathLoop]
    split
    · exact processPath_outlen df cands st p h
    · exact ih _ (processPath_outlen df cands st p h)

lemma targetLoop_outlen (df : List Txn) (cands : List String)
    (adj : String → List String) (source : String) :
    ∀ (tl : List String) (st : ShellState),
      st.out.length = st.cnt →
      (targetLoop df cands adj source st tl).out.length =
        (targetLoop df cands adj source st tl).cnt := by
  intro tl
  induction tl with
  | nil => intro st h; exact h
  | cons t rest ih =>
    intro st h
    rw [targetLoop]
    split
    · exact ih st h
    · exact ih _ (pathLoop_outlen df cands _ st h)

lemma sourceLoop_outlen (df : List Txn) (cands : List String)
    (adj : String → List String) (sinks : List String) :
    ∀ (sl : List String) (st : ShellState),
      st.out.length = st.cnt →
      (sourceLoop df cands adj sinks st sl).out.length =
        (sourceLoop df cands adj sinks st sl).cnt := by
  intro sl
  induction sl with
  | nil => intro st h; exact h
  | cons s rest ih =>
    intro st h
    rw [sourceLoop]
    split
    · exact h
    · exact ih _ (targetLoop_outlen df cands adj s sinks st h)

/-- Endpoint property of DFS paths: they run from `u` to `tgt`. -/
lemma dfsPaths_ends (adj : String → List String) (tgt : String) :
    ∀ (fuel : ℕ) (u : String) (vis : List String)
      (p : List String), p ∈ dfsPaths adj tgt fuel u vis →
      p.head? = some u ∧ p.getLast? = some tgt := by
  intro fuel
  induction fuel with
  | zero =>
    intro u vis p hp
    rw [dfsPaths] at hp
    split at hp
    · next h => rw [List.mem_singleton] at hp; subst hp; subst h; exact ⟨rfl, rfl⟩
    · cases hp
  | succ f ih =>
    intro u vis p hp
    rw [dfsPaths] at hp
    split at hp
    · next h => rw [List.mem_singleton] at hp; subst hp; subst h; exact ⟨rfl, rfl⟩
    · rw [List.mem_flatMap] at hp
      obtain ⟨v, _, hpv⟩ := hp
      rw [List.mem_map] at hpv
      obtain ⟨p', hp', rfl⟩ := hpv
      obtain ⟨hh, hl⟩ := ih v (v :: vis) p' hp'
      match p', hh with
      | v :: tail, _ =>
        exact ⟨rfl, by rw [List.getLast?_cons_cons]; exact hl⟩

/-- Endpoint invariant carried through the loops. -/
def GoodState (df : List Txn) (st : ShellState) : Prop :=
  ∀ sh ∈ st.out,
    (∃ s ∈ sourcesOf df, sh.chain.head? = some s) ∧
      (∃ t ∈ sinksOf df, sh.chain.getLast? = some t)

lemma processPath_good {df : List Txn} (cands : List String)
    {st : ShellState} {p : List String}
    (hst : GoodState df st)
    (hp : (∃ s ∈ sourcesOf df, p.head? = some s) ∧
      (∃ t ∈ sinksOf df, p.getLast? = some t)) :
    GoodState df (processPath df cands st p) := by
  simp only [processPath]
  repeat' split
  all_goals
    first
      | exact hst
      | (intro sh hsh
         rw [List.mem_append] at hsh
         rcases hsh with hsh | hsh
         · exact hst sh hsh
         · rw [List.mem_singleton] at hsh
           subst hsh
           exact hp)

lemma pathLoop_good {df : List Txn} {cands : List String} :
    ∀ {l : List (List String)} {st : ShellState},
      GoodState df st →
      (∀ p ∈ l, (∃ s ∈ sourcesOf df, p.head? = some s) ∧
        (∃ t ∈ sinksOf df, p.getLast? = some t)) →
      GoodState df (pathLoop df cands st l) := by
  intro l
  induction l with
  | nil => intro st h _; exact h
  | cons p rest ih =>
    intro st h hl
    rw [pathLoop]
    have h1 := processPath_good cands h (hl p (by simp))
    split
    · exact h1
    · exact ih h1 (fun q hq => hl q (by simp [hq]))

lemma targetLoop_good {df : List Txn} {cands : List String}
    {adj : String → List String} {source : String}
    (hs : source ∈ sourcesOf df) :
    ∀ {tl : List String} {st : ShellState},
      (∀ t ∈ tl, t ∈ sinksOf df) →
      GoodState df st →
      GoodState df (targetLoop df cands adj source st tl) := by
  intro tl
  induction tl with
  | nil => intro st _ h; exact h
  | cons t rest ih =>
    intro st htl h
    rw [targetLoop]
    split
    · exact ih (fun t' ht' => htl t' (by simp [ht'])) h
    · refine ih (fun t' ht' => htl t' (by simp [ht'])) ?_
      refine pathLoop_good h ?_
      intro p hp
      have hp' := dfsPaths_ends adj t 6 source [source] p
        (List.mem_of_mem_take hp)
      exact ⟨⟨source, hs, hp'.1⟩, ⟨t, htl t (by simp), hp'.2⟩⟩

lemma sourceLoop_good {df : List Txn} {cands : List String}
    {adj : String → List String} {sinks : List String}
    (hsinks : sinks = sinksOf df) :
    ∀ {sl : List String} {st : ShellState},
      (∀ s ∈ sl, s ∈ sourcesOf df) →
      GoodState df st →
      GoodState df (sourceLoop df cands adj sinks st sl) := by
  intro sl
  induction sl with
  | nil => intro st _ h; exact h
  | cons s rest ih =>
    intro st hsl h
    rw [sourceLoop]
    split
    · exact h
    · refine ih (fun s' hs' => hsl s' (by simp [hs'])) ?_
      refine targetLoop_good (hsl s (by simp)) ?_ h
      intro t ht; rw [hsinks] at ht; exact ht

/-- **C2, amended.**  The pipeline's shell detector selects sources as the
nodes with in-degree 0 or out-degree exceeding in-degree on the simple
projection (all nodes if that set is empty) and sinks symmetrically —
not the candidate-neighbour sets of the claim; it enumerates at most the
first 200 simple paths per (source, sink) pair (not 50), and it stops
starting new sources once 2 000 results are retained, but can retain up
to one extra result per remaining sink of the current source, so the
output is bounded by 2 000 plus the number of sinks (not by 2 000): every
emitted chain runs from a member of `sourcesOf` to a member of `sinksOf`,
and the number of results is at most `2000 + (sinksOf df).length`. -/
theorem c2_shell_selection_and_caps (df : List Txn) :
    (∀ sh ∈ detect_shells df,
      (∃ s ∈ sourcesOf df, sh.chain.head? = some s) ∧
        (∃ t ∈ sinksOf df, sh.chain.getLast? = some t)) ∧
      (detect_shells df).length ≤ 2000 + (sinksOf df).length := by
  simp only [detect_shells]
  split
  · constructor
    · intro sh hsh; cases hsh
    · simp
  · constructor
    · intro sh hsh
      exact sourceLoop_good rfl (fun s hs => hs) (fun sh' hsh' => by cases hsh')
        sh hsh
    · have hlen := sourceLoop_outlen df (shellCandidatesList df) (adjOf df)
        (sinksOf df) (sourcesOf df) ⟨[], [], 0⟩ rfl
      have hcnt := sourceLoop_cnt df (shellCandidatesList df) (adjOf df)
        (sinksOf df) (sourcesOf df) ⟨[], [], 0⟩
      have hcnt2 : (sourceLoop df (shellCandidatesList df) (adjOf df)
          (sinksOf df) ⟨[], [], 0⟩ (sourcesOf df)).cnt ≤
            2000 + (sinksOf df).length := by
        simpa using hcnt
      simp only [hlen]
      omega

/-! ## Ring-id assignment (`main._run_analysis` step 5) and
`scoring.build_fraud_rings` -/

/-- Step 5 of `_run_analysis`: `for s in smurfing_results: if not
s.ring_id: counter += 1; s.ring_id = f"RING_{counter:03d}"`, with the
counter threaded functionally. -/
def assignRingIdsGo : ℕ → List SmurfingResult → List SmurfingResult
  | _, [] => []
  | cnt, s :: rest =>
      if s.ring_id = "" then
        { s with ring_id := ringStr (cnt + 1) } :: assignRingIdsGo (cnt + 1) rest
      else s :: assignRingIdsGo cnt rest

/-- Ring-id assignment with the counter initialised to
`len(cycles) + len(shell_results)`. -/
def assignRingIds (base : ℕ) (smurfs : List SmurfingResult) :
    List SmurfingResult :=
  assignRingIdsGo base smurfs

/-- `scores.get(n, 0)`. -/
def scoresGet (scores : List (String × ℚ)) (n : String) : ℚ :=
  (scores.lookup n).getD 0

/-- One cycle's `FraudRing` (mean member score, 1.2× boost capped at 100
when every member exceeds 70, rounded to one decimal). -/
def cycleRing (scores : List (String × ℚ)) (cyc : CycleResult) : FraudRing :=
  let ms := cyc.nodes.map (scoresGet scores)
  let avg := if ms.isEmpty then 0 else ms.sum / ms.length
  let avg := if (ms.all (fun s => decide (70 < s))) = true ∧ ¬ms.isEmpty then
    min 100 (avg * (6/5)) else avg
  { ring_id := cyc.ring_id, member_accounts := cyc.nodes,
    pattern_type := "cycle", risk_score := round1q avg }

/-- `smurf_groups.setdefault(rid, []).append(member)` on an
insertion-ordered association list. -/
def addToGroups (groups : List (String × List String)) (rid member : String) :
    List (String × List String) :=
  match groups with
  | [] => [(rid, [member])]
  | (k, ms) :: rest =>
      if k = rid then (k, ms ++ [member]) :: rest
      else (k, ms) :: addToGroups rest rid member

/-- Grouping of smurfs by ring id (ad-hoc `SMURF_{account_id}` when the
ring id is empty). -/
def smurfGroups (smurfs : List SmurfingResult) : List (String × List String) :=
  smurfs.foldl (fun acc s =>
    addToGroups acc
      (if s.ring_id = "" then "SMURF_" ++ s.account_id else s.ring_id)
      s.account_id) []

/-- Sort relation of the final ring sort (descending risk score). -/
def riskRel (x y : FraudRing) : Prop := y.risk_score ≤ x.risk_score

instance : DecidableRel riskRel := fun x y =>
  inferInstanceAs (Decidable (y.risk_score ≤ x.risk_score))

/-- One smurf group's `FraudRing` (mean member score, one decimal). -/
def smurfRing (scores : List (String × ℚ)) (g : String × List String) :
    FraudRing :=
  { ring_id := g.1, member_accounts := g.2, pattern_type := "smurfing",
    risk_score := round1q (if g.2.isEmpty then 0
      else (g.2.map (scoresGet scores)).sum / g.2.length) }

/-- One shell's `FraudRing` (members = chain, mean member score). -/
def shellRing (scores : List (String × ℚ)) (sh : ShellResult) : FraudRing :=
  { ring_id := sh.ring_id, member_accounts := sh.chain,
    pattern_type := "shell",
    risk_score := round1q (if sh.chain.isEmpty then 0
      else (sh.chain.map (scoresGet scores)).sum / sh.chain.length) }

/-- `build_fraud_rings`: one ring per cycle, per smurf ring-id group, per
shell, sorted descending by risk score (stable). -/
def build_fraud_rings (scores : List (String × ℚ)) (cycles : List CycleResult)
    (smurfing : List SmurfingResult) (shells : List ShellResult) :
    List FraudRing :=
  (cycles.map (cycleRing scores) ++ (smurfGroups smurfing).map (smurfRing scores)
    ++ shells.map (shellRing scores)).insertionSort riskRel

/-! ## Claim C10: decimal-label injectivity machinery -/

lemma digitChar_toNat {d : ℕ} (hd : d < 10) : (digitChar d).toNat = 48 + d := by
  interval_cases d <;> decide

lemma natDigitsRevAux_spec :
    ∀ fuel n, n ≤ fuel →
      digitsVal (natDigitsRevAux fuel n) = n ∧
        ∀ d ∈ natDigitsRevAux fuel n, d < 10 := by
  intro fuel
  induction fuel with
  | zero =>
    intro n hn
    have : n = 0 := by omega
    subst this
    exact ⟨rfl, by intro d hd; simp [natDigitsRevAux] at hd; omega⟩
  | succ fuel ih =>
    intro n hn
    rw [natDigitsRevAux]
    split
    · next h =>
      refine ⟨by simp [digitsVal], ?_⟩
      intro d hd; simp at hd; omega
    · next h =>
      have hdiv : n / 10 ≤ fuel := by
        have := Nat.div_lt_self (by omega : 0 < n) (by omega : 1 < 10)
        omega
      obtain ⟨ihv, ihd⟩ := ih (n / 10) hdiv
      constructor
      · simp only [digitsVal, ihv]; omega
      · intro d hd
        rcases List.mem_cons.mp hd with rfl | hd'
        · omega
        · exact ihd d hd'

lemma digitsVal_natDigitsRev (n : ℕ) : digitsVal (natDigitsRev n) = n :=
  (natDigitsRevAux_spec n n le_rfl).1

lemma natDigitsRev_lt (n : ℕ) : ∀ d ∈ natDigitsRev n, d < 10 :=
  (natDigitsRevAux_spec n n le_rfl).2

lemma foldl_replicate_zero (k : ℕ) :
    List.foldl (fun a c => 10 * a + (c.toNat - 48)) 0
      (List.replicate k '0') = 0 := by
  induction k with
  | zero => rfl
  | succ k ih => simpa [List.replicate_succ] using ih

lemma foldl_digits (ds : List ℕ) (h : ∀ d ∈ ds, d < 10) :
    ∀ acc, List.foldl (fun a c => 10 * a + (c.toNat - 48)) acc
        (ds.reverse.map digitChar) = acc * 10 ^ ds.length + digitsVal ds := by
  induction ds with
  | nil => intro acc; simp [digitsVal]
  | cons d tl ih =>
    intro acc
    rw [List.reverse_cons, List.map_append, List.foldl_append,
      ih (fun x hx => h x (by simp [hx])) acc]
    simp only [List.map_cons, List.map_nil, List.foldl_cons, List.foldl_nil,
      digitsVal, List.length_cons]
    rw [digitChar_toNat (h d (by simp))]
    ring_nf
    omega

lemma charsVal_pad3 (n : ℕ) : charsVal (pad3Chars n) = n := by
  unfold charsVal pad3Chars natReprChars
  rw [List.foldl_append, foldl_replicate_zero,
    foldl_digits (natDigitsRev n) (natDigitsRev_lt n) 0]
  simpa using digitsVal_natDigitsRev n

lemma pad3Chars_inj {m n : ℕ} (h : pad3Chars m = pad3Chars n) : m = n := by
  have := congrArg charsVal h
  rwa [charsVal_pad3, charsVal_pad3] at this

lemma ringStr_inj {m n : ℕ} (h : ringStr m = ringStr n) : m = n := by
  have h' : (['R', 'I', 'N', 'G', '_'] ++ pad3Chars m : List Char) =
      ['R', 'I', 'N', 'G', '_'] ++ pad3Chars n := congrArg String.data h
  exact pad3Chars_inj (List.append_cancel_left h')

lemma ringStr_ne_empty (m : ℕ) : ringStr m ≠ "" := by
  intro h
  have h1 := congrArg String.data h
  simp [ringStr] at h1

lemma ringStr_ne_smurf (m : ℕ) (a : String) :
    ringStr m ≠ "SMURF_" ++ a := by
  intro h
  have h1 : (['R', 'I', 'N', 'G', '_'] ++ pad3Chars m : List Char) =
      ("SMURF_").data ++ a.data := by
    have h0 := congrArg String.data h
    simp only [ringStr, String.data_append] at h0
    exact h0
  have h2 : (some 'R' : Option Char) = some 'S' := congrArg List.head? h1
  simp at h2

/-! ## Claim C10: smurf ring ids and singleton smurf rings -/

lemma detectFanGroup_ringid (counter : Txn → String) (pattern : String)
    (threshold : ℕ) (w : ℤ) (acct : String) (grp : List Txn) :
    ∀ s ∈ detectFanGroup counter pattern threshold w acct grp,
      s.ring_id = "" := by
  intro s hs
  simp only [detectFanGroup] at hs
  split at hs
  · cases hs
  · split at hs
    · split at hs
      · rw [List.mem_singleton] at hs; subst hs; rfl
      · cases hs
    · cases hs

lemma detect_smurfing_ringid (df : List Txn) :
    ∀ s ∈ detect_smurfing df, s.ring_id = "" := by
  intro s hs
  unfold detect_smurfing detect_fan at hs
  rw [List.mem_append] at hs
  rcases hs with hs | hs <;>
    (rw [List.mem_flatMap] at hs; obtain ⟨k, _, hk⟩ := hs;
     exact detectFanGroup_ringid _ _ _ _ k _ s hk)

lemma assignRingIdsGo_facts :
    ∀ (smurfs : List SmurfingResult) (cnt : ℕ),
      (∀ s ∈ smurfs, s.ring_id = "") →
      (((assignRingIdsGo cnt smurfs).map SmurfingResult.ring_id).Pairwise Ne ∧
        (∀ s ∈ assignRingIdsGo cnt smurfs,
          ∃ m, cnt < m ∧ s.ring_id = ringStr m) ∧
        (assignRingIdsGo cnt smurfs).map SmurfingResult.account_id =
          smurfs.map SmurfingResult.account_id) := by
  intro smurfs
  induction smurfs with
  | nil => intro cnt _; simp [assignRingIdsGo]
  | cons s rest ih =>
    intro cnt hall
    have hs0 : s.ring_id = "" := hall s (by simp)
    rw [assignRingIdsGo, if_pos hs0]
    obtain ⟨ihp, ihm, ihacc⟩ := ih (cnt + 1) (fun s' hs' => hall s' (by simp [hs']))
    refine ⟨?_, ?_, by simpa using ihacc⟩
    · rw [List.map_cons, List.pairwise_cons]
      refine ⟨?_, ihp⟩
      intro rid hrid
      rw [List.mem_map] at hrid
      obtain ⟨s', hs', rfl⟩ := hrid
      obtain ⟨m, hm, hid⟩ := ihm s' hs'
      rw [hid]
      intro hcontra
      exact absurd (ringStr_inj hcontra) (by omega)
    · intro s' hs'
      rcases List.mem_cons.mp hs' with rfl | hs''
      · exact ⟨cnt + 1, by omega, rfl⟩
      · obtain ⟨m, hm, hid⟩ := ihm s' hs''
        exact ⟨m, by omega, hid⟩

lemma addToGroups_new {acc : List (String × List String)} {rid member : String}
    (h : ∀ g ∈ acc, g.1 ≠ rid) :
    addToGroups acc rid member = acc ++ [(rid, [member])] := by
  induction acc with
  | nil => rfl
  | cons g rest ih =>
    match g with
    | (k, ms) =>
      rw [addToGroups]
      rw [if_neg (h (k, ms) (by simp))]
      simpa using ih (fun g' hg' => h g' (by simp [hg']))

lemma smurfGroups_of_distinct :
    ∀ (smurfs : List SmurfingResult) (acc : List (String × List String)),
      (∀ s ∈ smurfs, s.ring_id ≠ "") →
      (∀ s ∈ smurfs, ∀ g ∈ acc, g.1 ≠ s.ring_id) →
      ((smurfs.map SmurfingResult.ring_id).Pairwise Ne) →
      smurfs.foldl (fun acc s =>
        addToGroups acc
          (if s.ring_id = "" then "SMURF_" ++ s.account_id else s.ring_id)
          s.account_id) acc =
        acc ++ smurfs.map (fun s => (s.ring_id, [s.account_id])) := by
  intro smurfs
  induction smurfs with
  | nil => intro acc _ _ _; simp
  | cons s rest ih =>
    intro acc hne hacc hpw
    rw [List.foldl_cons, if_neg (hne s (by simp)),
      addToGroups_new (fun g hg => hacc s (by simp) g hg)]
    rw [List.map_cons, List.pairwise_cons] at hpw
    rw [ih (acc ++ [(s.ring_id, [s.account_id])])
      (fun s' hs' => hne s' (by simp [hs']))
      ?_ hpw.2]
    · simp
    · intro s' hs' g hg
      rw [List.mem_append] at hg
      rcases hg with hg | hg
      · exact hacc s' (by simp [hs']) g hg
      · rw [List.mem_singleton] at hg
        subst hg
        exact hpw.1 s'.ring_id (List.mem_map.mpr ⟨s', hs', rfl⟩)

/-- **C10 (confirmed).**  In the pipeline, every smurfing result gets a
non-empty `RING_MMM` ring id before fraud rings are built (the detector
emits empty ids, step 5 numbers them consecutively), every smurfing
`FraudRing` has exactly one member account, its ring id is one of the
assigned `RING_MMM` labels, and the ad-hoc `SMURF_{account_id}` branch is
never taken. -/
theorem c10_smurf_ring_assignment (df : List Txn) (base : ℕ)
    (scores : List (String × ℚ)) (cycles : List CycleResult)
    (shells : List ShellResult) :
    (∀ s ∈ assignRingIds base (detect_smurfing df),
      s.ring_id ≠ "" ∧ ∃ m, s.ring_id = ringStr m) ∧
      (∀ ring ∈ build_fraud_rings scores cycles
          (assignRingIds base (detect_smurfing df)) shells,
        ring.pattern_type = "smurfing" →
          ring.member_accounts.length = 1 ∧
            (∃ m, ring.ring_id = ringStr m) ∧
            ∀ a : String, ring.ring_id ≠ "SMURF_" ++ a) := by
  obtain ⟨hpw, hmem, _⟩ := assignRingIdsGo_facts (detect_smurfing df) base
    (detect_smurfing_ringid df)
  constructor
  · intro s hs
    obtain ⟨m, _, hid⟩ := hmem s hs
    exact ⟨hid ▸ ringStr_ne_empty m, m, hid⟩
  · intro ring hring hsm
    unfold build_fraud_rings at hring
    rw [(List.perm_insertionSort riskRel _).mem_iff] at hring
    rw [List.mem_append, List.mem_append] at hring
    rcases hring with (hring | hring) | hring
    · rw [List.mem_map] at hring
      obtain ⟨cyc, _, rfl⟩ := hring
      rw [show (cycleRing scores cyc).pattern_type = "cycle" from rfl] at hsm
      exact absurd hsm (by decide)
    · rw [List.mem_map] at hring
      obtain ⟨g, hg, rfl⟩ := hring
      rw [smurfGroups, smurfGroups_of_distinct
        (assignRingIds base (detect_smurfing df)) []
        (fun s hs => by
          obtain ⟨m, _, hid⟩ := hmem s hs
          exact hid ▸ ringStr_ne_empty m)
        (fun s _ g' hg' => by cases hg') hpw] at hg
      rw [List.nil_append, List.mem_map] at hg
      obtain ⟨s, hs, rfl⟩ := hg
      obtain ⟨m, _, hid⟩ := hmem s hs
      exact ⟨rfl, ⟨m, hid⟩, fun a => hid ▸ ringStr_ne_smurf m a⟩
    · rw [List.mem_map] at hring
      obtain ⟨sh, _, rfl⟩ := hring
      rw [show (shellRing scores sh).pattern_type = "shell" from rfl] at hsm
      exact absurd hsm (by decide)

end MuleDetect
